import Mathlib

/-!
# Release selection and binary swap of `lib/upgrade/upgrade_supported.go`

A shallow embedding of the release selector (`SelectLatestRelease`) and of the
installer (`upgradeTo`, `upgradeToURL`) together with the properties proved
about them.

Conventions of the embedding.

* A Go result `(Release, error)` is the pair `Release × Option Error`; `none`
  is the `nil` error.
* `CompareVersions` and `releaseNames` are declared in another file of the
  package.  Every definition that calls them takes them as arguments; a model
  of `CompareVersions` is given further down, for the property of the
  comparator itself and for running the selector on concrete releases.
* `sort.Sort`, `path.Base`, `strings.HasPrefix`, `filepath.Dir`, `os.Remove`
  and `os.Rename` belong to the Go standard library.  `sort.Sort` and
  `filepath.Dir` are arguments; the others are modelled below.
-/

namespace Upgrade

/-! ## Data model -/

/-- An asset of a release: `Asset{Name, URL}`. -/
structure Asset where
  Name : String
  URL : String
  deriving DecidableEq, Repr

/-- A release: `Release{Tag, Prerelease, Assets}`. -/
structure Release where
  Tag : String
  Prerelease : Bool
  Assets : List Asset
  deriving DecidableEq, Repr

/-- The zero value `Release{}`. -/
def Release.zero : Release := { Tag := "", Prerelease := false, Assets := [] }

/-- Modelled from the spec: the type `Relation` and its constants are declared
outside this file.  The spec lists the five outcomes of a comparison; the code
tests a relation with `> 0`, so each outcome carries an integer, negative for
the two "older" outcomes, zero for `Equal`, positive for the two "newer"
ones. -/
inductive Relation where
  | MajorOlder
  | Older
  | Equal
  | Newer
  | MajorNewer
  deriving DecidableEq, Repr

/-- The integer a relation stands for (Go: `type Relation int`). -/
def Relation.toInt : Relation → Int
  | .MajorOlder => -2
  | .Older => -1
  | .Equal => 0
  | .Newer => 1
  | .MajorNewer => 2

/-- Errors returned by the package.  `ErrNoVersionToSelect` and
`ErrNoReleaseDownload` are the two package-level error values; `other` stands
for any error made elsewhere (`errors.New`, a failed system call). -/
inductive Error where
  | ErrNoVersionToSelect
  | ErrNoReleaseDownload
  | other (msg : String)
  deriving DecidableEq, Repr

/-! ## Standard library functions used by the selector -/

/-- Go `strings.HasPrefix(s, prefix)`. -/
def stringsHasPrefix (s pre : String) : Bool :=
  pre.data.isPrefixOf s.data

/-- Drop the trailing slashes of a path given as its characters reversed. -/
def dropSlashes : List Char → List Char
  | [] => []
  | c :: cs => if c = '/' then dropSlashes cs else c :: cs

/-- Go `path.Base`: the last element of a path; trailing slashes are removed
first, the empty path gives ".", a path of slashes only gives "/". -/
def pathBase (p : String) : String :=
  if p.data = [] then "."
  else
    let stripped := dropSlashes p.data.reverse
    let last := (stripped.takeWhile (fun c => c ≠ '/')).reverse
    if last = [] then "/" else String.mk last

/-- The comparison of `SortByRelease.Less`: `CompareVersions(s[i].Tag, s[j].Tag) > 0`,
as a function of the two elements. -/
def SortByRelease.Less (CompareVersions : String → String → Relation)
    (a b : Release) : Bool :=
  decide ((CompareVersions a.Tag b.Tag).toInt > 0)

/-- Go `sort.Reverse`: the same data with `Less(i, j)` answered by the inner
`Less(j, i)`. -/
def sortReverse {α : Type} (less : α → α → Bool) : α → α → Bool :=
  fun a b => less b a

/-- The inner loop of the library's `insertionSort`: the element `x`, placed
after the already sorted part, is swapped towards the front while
`Less(j, j-1)` holds.  The sorted part is given back to front. -/
def insertionStep {α : Type} (less : α → α → Bool) (x : α) : List α → List α
  | [] => [x]
  | y :: ys => if less x y then y :: insertionStep less x ys else x :: y :: ys

/-- The library's `insertionSort`, which is what `sort.Sort` runs on a slice of
at most twelve elements. -/
def insertionSort {α : Type} (less : α → α → Bool) (l : List α) : List α :=
  (l.foldl (fun acc x => insertionStep less x acc) []).reverse

/-! ## The selector -/

section Selector

variable (sortSort : (Release → Release → Bool) → List Release → List Release)
variable (CompareVersions : String → String → Relation)
variable (releaseNames : String → List String)

/-- The asset loop of `SelectLatestRelease` (label `nextAsset`): true when some
asset's base name starts with one of the expected release names, in which case
the loop sets `selected = rel` and breaks. -/
def hasMatchingAsset (rel : Release) : Bool :=
  rel.Assets.any (fun asset =>
    (releaseNames rel.Tag).any (fun expRel =>
      stringsHasPrefix (pathBase asset.Name) expRel))

/-- The statements after the loop of `SelectLatestRelease`. -/
def selectFinish (selected : Release) : Release × Option Error :=
  if selected.Tag = "" then (Release.zero, some Error.ErrNoReleaseDownload)
  else (selected, none)

/-- The loop `for _, rel := range rels` of `SelectLatestRelease`, started with
the accumulator `selected`, followed by the statements after the loop. -/
def selectLoop (current : String) (upgradeToPreReleases : Bool) :
    List Release → Release → Release × Option Error
  | [], selected => selectFinish selected
  | rel :: rest, selected =>
    if CompareVersions rel.Tag current = Relation.MajorNewer
        ∧ selected.Tag ≠ "" ∧ CompareVersions selected.Tag current = Relation.Newer then
      (selected, none)
    else if rel.Prerelease && !upgradeToPreReleases then
      selectLoop current upgradeToPreReleases rest selected
    else if hasMatchingAsset releaseNames rel then
      selectLoop current upgradeToPreReleases rest rel
    else
      selectLoop current upgradeToPreReleases rest selected

/-- The function `SelectLatestRelease(rels, current, upgradeToPreReleases)`: the
length test, the sort, the loop and the statements after it. -/
def SelectLatestRelease (rels : List Release) (current : String)
    (upgradeToPreReleases : Bool) : Release × Option Error :=
  if rels.length = 0 then (Release.zero, some Error.ErrNoVersionToSelect)
  else
    selectLoop CompareVersions releaseNames current upgradeToPreReleases
      (sortSort (sortReverse (SortByRelease.Less CompareVersions)) rels) Release.zero

/-- The function `FetchLatestReleases(releasesURL, current)` of this file:
`make([]Release, 0)`. -/
def FetchLatestReleases (_releasesURL _current : String) : List Release := []

/-- The function `LatestRelease(releasesURL, current, upgradeToPreReleases)`. -/
def LatestRelease (releasesURL current : String) (upgradeToPreReleases : Bool) :
    Release × Option Error :=
  SelectLatestRelease sortSort CompareVersions releaseNames
    (FetchLatestReleases releasesURL current) current upgradeToPreReleases

end Selector

/-! ## Instrumentation of the selector and the predicates of its properties -/

section SelectorProps

variable (sortSort : (Release → Release → Bool) → List Release → List Release)
variable (CompareVersions : String → String → Relation)
variable (releaseNames : String → List String)

/-- The releases on which the body of the loop of `SelectLatestRelease` runs,
in the order in which it runs on them: the same loop as `selectLoop`, recording
`rel` at each iteration. -/
def visitLoop (current : String) (upgradeToPreReleases : Bool) :
    List Release → Release → List Release
  | [], _ => []
  | rel :: rest, selected =>
    rel ::
      (if CompareVersions rel.Tag current = Relation.MajorNewer
          ∧ selected.Tag ≠ "" ∧ CompareVersions selected.Tag current = Relation.Newer then
        []
      else if rel.Prerelease && !upgradeToPreReleases then
        visitLoop current upgradeToPreReleases rest selected
      else if hasMatchingAsset releaseNames rel then
        visitLoop current upgradeToPreReleases rest rel
      else
        visitLoop current upgradeToPreReleases rest selected)

/-- The releases visited by the walk of `SelectLatestRelease`, in order. -/
def visitedReleases (rels : List Release) (current : String)
    (upgradeToPreReleases : Bool) : List Release :=
  if rels.length = 0 then []
  else
    visitLoop CompareVersions releaseNames current upgradeToPreReleases
      (sortSort (sortReverse (SortByRelease.Less CompareVersions)) rels) Release.zero

/-- A release the loop body assigns to `selected`: it is not a pre-release
skipped by the flag and one of its assets matches. -/
def Candidate (upgradeToPreReleases : Bool) (rel : Release) : Prop :=
  hasMatchingAsset releaseNames rel = true
    ∧ (rel.Prerelease = false ∨ upgradeToPreReleases = true)

/-- An eligible release: non-empty tag, a matching asset, and not a pre-release
unless pre-releases are allowed. -/
def Eligible (upgradeToPreReleases : Bool) (rel : Release) : Prop :=
  rel.Tag ≠ "" ∧ Candidate releaseNames upgradeToPreReleases rel

instance Candidate.decidable (pre : Bool) (rel : Release) :
    Decidable (Candidate releaseNames pre rel) := by
  unfold Candidate
  infer_instance

instance Eligible.decidable (pre : Bool) (rel : Release) :
    Decidable (Eligible releaseNames pre rel) := by
  unfold Eligible
  infer_instance

/-- The contract of the library's `sort.Sort`: the result is a rearrangement of
the input whatever `Less` is, and when `Less` is a strict weak ordering no
element of the result is `Less` than an element before it. -/
structure SortContract : Prop where
  perm : ∀ (less : Release → Release → Bool) (l : List Release), (sortSort less l).Perm l
  sorted : ∀ (less : Release → Release → Bool) (l : List Release),
    (∀ a b, less a b = true → less b a = false) →
    (∀ a b c, less a b = false → less b c = false → less a c = false) →
    (sortSort less l).Pairwise (fun a b => less b a = false)

/-- The comparator is a total preorder on tags: `a` ranks at least `b` when
`CompareVersions a b ≥ 0`; a positive answer one way is a negative answer the
other way, and the ranking is transitive. -/
structure IsTotalPreorder : Prop where
  antisymm : ∀ a b, 0 < (CompareVersions a b).toInt ↔ (CompareVersions b a).toInt < 0
  trans : ∀ a b c, 0 ≤ (CompareVersions a b).toInt → 0 ≤ (CompareVersions b c).toInt →
    0 ≤ (CompareVersions a c).toInt

end SelectorProps

/-! ## The installer -/

/-- The content of a file. -/
abbrev Content := List UInt8

/-- The files of the file system: the content found at each path, if any. -/
abbrev FS := String → Option Content

/-- Go `os.Remove(name)` on a file.  `fault` is a failure imposed from outside
(permissions, I/O); a failed call changes nothing. -/
def osRemove (fault : Option Error) (name : String) (fs : FS) : Option Error × FS :=
  match fault with
  | some e => (some e, fs)
  | none =>
    match fs name with
    | none => (some (Error.other "no such file or directory"), fs)
    | some _ => (none, fun p => if p = name then none else fs p)

/-- Go `os.Rename(oldpath, newpath)` on a file: the file replaces whatever is
at `newpath`.  `fault` is a failure imposed from outside; a failed call changes
nothing. -/
def osRename (fault : Option Error) (oldpath newpath : String) (fs : FS) :
    Option Error × FS :=
  match fault with
  | some e => (some e, fs)
  | none =>
    match fs oldpath with
    | none => (some (Error.other "no such file or directory"), fs)
    | some c => (none, fun p => if p = newpath then some c else if p = oldpath then none else fs p)

/-- The failures imposed on the five file operations of `upgradeToURL`, one per
call site. -/
structure Faults where
  removeOld : Option Error
  renameOld : Option Error
  renameNew : Option Error
  rollback : Option Error
  removeTmp : Option Error

/-- The function `readRelease(archiveName, dir, url)` of this file. -/
def readRelease (_archiveName _dir _url : String) : String × Option Error :=
  ("", some (Error.other "autoupgrade disabled"))

section Installer

variable (extract : String → String → String → String × Option Error)
variable (filepathDir : String → String)
variable (releaseNames : String → List String)

/-- The function `upgradeToURL(archiveName, binary, url)` with the download/extract
collaborator `extract` in the place of `readRelease`.  The deferred
`os.Remove(fname)` runs on every return after the collaborator succeeded. -/
def upgradeToURL (ft : Faults) (archiveName binary url : String) (fs : FS) :
    Option Error × FS :=
  match extract archiveName (filepathDir binary) url with
  | (_, some err) => (some err, fs)
  | (fname, none) =>
    let old := binary ++ ".old"
    let fs1 := (osRemove ft.removeOld old fs).2
    match osRename ft.renameOld binary old fs1 with
    | (some err, fs2) => (some err, (osRemove ft.removeTmp fname fs2).2)
    | (none, fs2) =>
      match osRename ft.renameNew fname binary fs2 with
      | (some err, fs3) =>
        let fs4 := (osRename ft.rollback old binary fs3).2
        (some err, (osRemove ft.removeTmp fname fs4).2)
      | (none, fs3) => (none, (osRemove ft.removeTmp fname fs3).2)

/-- The function `upgradeTo(binary, rel)`: the first asset whose base name starts with an
expected release name is handed to `upgradeToURL`. -/
def upgradeTo (ft : Faults) (binary : String) (rel : Release) (fs : FS) :
    Option Error × FS :=
  match rel.Assets.find? (fun asset =>
      (releaseNames rel.Tag).any (fun expRel =>
        stringsHasPrefix (pathBase asset.Name) expRel)) with
  | some asset =>
    upgradeToURL extract filepathDir ft (pathBase asset.Name) binary asset.URL fs
  | none => (some Error.ErrNoReleaseDownload, fs)

end Installer

/-! ## The comparator

`CompareVersions` is declared in another file of the package.  The definitions
below model it, together with the order of tags its answers follow. -/

/-- The answer of a three-way comparison of two integers: `-1`, `0` or `1`. -/
def threeWay (x y : Int) : Int :=
  if x < y then -1 else if y < x then 1 else 0

/-- The comparison of two lists field by field: the first fields that differ
decide; when one list runs out first, the longer list is the greater. -/
def compareLists {α : Type} (c : α → α → Int) : List α → List α → Int
  | [], [] => 0
  | [], _ :: _ => -1
  | _ :: _, [] => 1
  | a :: as, b :: bs =>
    if c a b < 0 then -1 else if 0 < c a b then 1 else compareLists c as bs

/-- Go string comparison `s < t`, `s > t`, on the characters of the strings. -/
def compareText (s t : List Char) : Int :=
  compareLists (fun a b => threeWay a.toNat b.toNat) s t

/-- One field of the pre-release part of a tag: a number when `strconv.Atoi`
accepts the field, the field itself otherwise. -/
inductive PreField where
  | num (n : Int)
  | text (s : List Char)
  deriving DecidableEq, Repr

/-- The number written by a non-empty run of decimal digits. -/
def atoiDigits (ds : List Char) : Option Nat :=
  if ds ≠ [] ∧ ds.all Char.isDigit then
    some (ds.foldl (fun n c => 10 * n + (c.toNat - 48)) 0)
  else none

/-- Go `strconv.Atoi`: the value and whether the error is nil.  A field that
is not an optional sign followed by digits gives `0` and an error; a number
outside the 64-bit range gives the nearest bound and an error. -/
def strconvAtoi (cs : List Char) : Int × Bool :=
  let neg := decide (cs.head? = some '-')
  let ds := match cs with
    | '-' :: r => r
    | '+' :: r => r
    | r => r
  match atoiDigits ds with
  | none => (0, false)
  | some n =>
    if neg then
      if n ≤ 2 ^ 63 then (-(n : Int), true) else (-(2 ^ 63 : Int), false)
    else
      if n < 2 ^ 63 then ((n : Int), true) else ((2 ^ 63 : Int) - 1, false)

/-- Modelled from the spec: `versionParts`, the parsing step of the comparator,
is declared in another file of the package.  A leading `v` or `V` is dropped,
what follows a `+` is ignored, the text before the first `-` is split at the
dots into the release numbers (a field that is not a number counts as `0`, so a
malformed tag is read, not refused) and the text after it into the pre-release
fields. -/
def versionParts (v : String) : List Int × List PreField :=
  let cs := match v.data with
    | 'v' :: r => r
    | 'V' :: r => r
    | r => r
  let noBuild := cs.takeWhile (fun c => c ≠ '+')
  let release := ((noBuild.takeWhile (fun c => c ≠ '-')).splitOn '.').map
    (fun f => (strconvAtoi f).1)
  let prerelease :=
    if noBuild.contains '-' then
      (((noBuild.dropWhile (fun c => c ≠ '-')).drop 1).splitOn '.').map
        (fun f => if (strconvAtoi f).2 then PreField.num (strconvAtoi f).1
          else PreField.text f)
    else []
  (release, prerelease)

/-- Modelled from the spec: the first loop of the comparator, over the release
numbers both tags have.  The first difference decides: in the major number it
is `MajorOlder` or `MajorNewer`, except between major `0` and major `1`, which
count as one major line; in a later number it is `Older` or `Newer`.  `first`
tells whether the number at hand is the major one. -/
def compareRelease (first : Bool) : List Int → List Int → Option Relation
  | a :: as, b :: bs =>
    if a < b then
      if first then
        if a = 0 ∧ b = 1 then some Relation.Older else some Relation.MajorOlder
      else some Relation.Older
    else if b < a then
      if first then
        if a = 1 ∧ b = 0 then some Relation.Newer else some Relation.MajorNewer
      else some Relation.Newer
    else compareRelease false as bs
  | _, _ => none

/-- Modelled from the spec: the second loop of the comparator, over the
pre-release fields both tags have: numbers by value, a number below a text,
texts as strings; every difference is `Older` or `Newer`. -/
def comparePrerelease : List PreField → List PreField → Option Relation
  | PreField.num x :: as, PreField.num y :: bs =>
    if x < y then some Relation.Older
    else if y < x then some Relation.Newer
    else comparePrerelease as bs
  | PreField.num _ :: _, PreField.text _ :: _ => some Relation.Older
  | PreField.text _ :: _, PreField.num _ :: _ => some Relation.Newer
  | PreField.text s :: as, PreField.text t :: bs =>
    if compareText s t < 0 then some Relation.Older
    else if 0 < compareText s t then some Relation.Newer
    else comparePrerelease as bs
  | _, _ => none

/-- Modelled from the spec: `CompareVersions` is declared in another file of
the package.  The spec describes it as classifying two tags as older, equal,
newer, major-older or major-newer, where `MajorOlder` and `MajorNewer` denote a
difference in the major component and `Older` and `Newer` any other difference
(minor, patch, pre-release ordering), a pre-release tag ranking below the
release tag of the same base version, and a malformed tag not making the
comparison fail.  The model compares the release numbers, then lets the tag
with more release numbers be the newer, then lets a tag without pre-release
part be newer than one with, then compares the pre-release fields, and lets the
tag with more of them be the newer. -/
def CompareVersions (a b : String) : Relation :=
  let pa := versionParts a
  let pb := versionParts b
  match compareRelease true pa.1 pb.1 with
  | some r => r
  | none =>
    if pa.1.length < pb.1.length then Relation.Older
    else if pb.1.length < pa.1.length then Relation.Newer
    else if pa.2.length = 0 ∧ 0 < pb.2.length then Relation.Newer
    else if 0 < pa.2.length ∧ pb.2.length = 0 then Relation.Older
    else
      match comparePrerelease pa.2 pb.2 with
      | some r => r
      | none =>
        if pa.2.length < pb.2.length then Relation.Older
        else if pb.2.length < pa.2.length then Relation.Newer
        else Relation.Equal

/-- A three-way comparison that is a total preorder: a negative answer one way
is a positive answer the other way, and "at most" is transitive. -/
structure IsThreeWay {α : Type} (c : α → α → Int) : Prop where
  anti : ∀ a b, c a b < 0 ↔ 0 < c b a
  trans : ∀ a b d, c a b ≤ 0 → c b d ≤ 0 → c a d ≤ 0

/-- Two three-way comparisons in lexicographic order. -/
def lexThreeWay {α β : Type} (c1 : α → α → Int) (c2 : β → β → Int) (x y : α × β) : Int :=
  if c1 x.1 y.1 < 0 then -1 else if 0 < c1 x.1 y.1 then 1 else c2 x.2 y.2

/-- The comparison of two fields of a pre-release part: numbers by value, a
number below a text, texts as strings. -/
def preFieldCompare : PreField → PreField → Int
  | PreField.num x, PreField.num y => threeWay x y
  | PreField.num _, PreField.text _ => -1
  | PreField.text _, PreField.num _ => 1
  | PreField.text s, PreField.text t => compareText s t

/-- The order of tags behind `CompareVersions`: the release numbers, then a tag
without pre-release part above one with, then the pre-release fields. -/
def keyCompare (ka kb : List Int × List PreField) : Int :=
  lexThreeWay (compareLists threeWay)
    (lexThreeWay (fun p q : List PreField =>
        threeWay (if p.length = 0 then 1 else 0) (if q.length = 0 then 1 else 0))
      (compareLists preFieldCompare))
    (ka.1, ka.2, ka.2) (kb.1, kb.2, kb.2)

/-! ## A naming rule, a collaborator and a file system for evaluation

The package's `releaseNames` is not part of this file.  The definitions below
are one naming rule of the expected shape and the data on which the selector
and the installer are run. -/

/-- A naming rule: one expected prefix per tag. -/
def demoReleaseNames (tag : String) : List String :=
  ["syncthing-linux-amd64-" ++ tag ++ "."]

/-- A release with a single asset of the given name. -/
def demoRelease (tag : String) (prerelease : Bool) (assetName : String) : Release :=
  { Tag := tag, Prerelease := prerelease,
    Assets := [{ Name := assetName, URL := "https://example.org/" ++ assetName }] }

/-- A collaborator that reports the extracted file at a fixed path. -/
def demoExtract (fname : String) (_archiveName _dir _url : String) : String × Option Error :=
  (fname, none)

/-- A stand-in for `filepath.Dir`. -/
def demoDir (_binary : String) : String := "/opt/syncthing"

/-- A file system holding the running binary and an extracted new binary. -/
def demoFS : FS := fun p =>
  if p = "/opt/syncthing/syncthing" then some [1, 2, 3]
  else if p = "/opt/syncthing/syncthing.tmp" then some [4, 5, 6]
  else none

/-- No failure imposed on any file operation. -/
def demoNoFaults : Faults :=
  { removeOld := none, renameOld := none, renameNew := none, rollback := none,
    removeTmp := none }

/-- The rename of the new binary into place fails. -/
def demoRenameNewFails : Faults :=
  { removeOld := none, renameOld := none,
    renameNew := some (Error.other "invalid cross-device link"), rollback := none,
    removeTmp := none }

/-- The rename of the new binary into place fails and so does the rename
back. -/
def demoRollbackFails : Faults :=
  { removeOld := none, renameOld := none,
    renameNew := some (Error.other "invalid cross-device link"),
    rollback := some (Error.other "input/output error"), removeTmp := none }

/-- The first rename fails and so does the deferred remove of the extracted
file. -/
def demoCleanupFails : Faults :=
  { removeOld := none, renameOld := some (Error.other "permission denied"),
    renameNew := none, rollback := none,
    removeTmp := some (Error.other "permission denied") }

/-- A file system holding the running binary and an extracted new binary that
sits at the path of the saved copy. -/
def demoFSOld : FS := fun p =>
  if p = "/opt/syncthing/syncthing" then some [1, 2, 3]
  else if p = "/opt/syncthing/syncthing.old" then some [4, 5, 6]
  else none

/-- A release with three assets: one for another platform, then two for this
platform, the first of them named with a directory in front. -/
def demoMultiAsset : Release :=
  { Tag := "v1.1.0", Prerelease := false,
    Assets :=
      [{ Name := "syncthing-windows-amd64-v1.1.0.zip", URL := "https://example.org/w" },
       { Name := "dist/syncthing-linux-amd64-v1.1.0.tar.gz", URL := "https://example.org/a" },
       { Name := "syncthing-linux-amd64-v1.1.0.zip", URL := "https://example.org/b" }] }

/-! ## The test of the asset scans -/

/-- The test both asset scans apply to an asset of `rel`: its base name starts
with one of the expected release names of the tag. -/
def assetMatches (releaseNames : String → List String) (rel : Release) (asset : Asset) :
    Bool :=
  (releaseNames rel.Tag).any (fun expRel => stringsHasPrefix (pathBase asset.Name) expRel)

/-! ## Eligibility in the words of the claims -/

/-- Some asset of the release has a base name that starts with one of the
expected release names of its tag: the base name is that expected name
followed by some text. -/
def HasNamedAsset (releaseNames : String → List String) (rel : Release) : Prop :=
  ∃ asset ∈ rel.Assets, ∃ expRel ∈ releaseNames rel.Tag, ∃ rest : String,
    pathBase asset.Name = expRel ++ rest

/-- The release has an asset for this platform and is not a pre-release, or
pre-releases are allowed. -/
def Selectable (releaseNames : String → List String) (upgradeToPreReleases : Bool)
    (rel : Release) : Prop :=
  HasNamedAsset releaseNames rel ∧ (rel.Prerelease = false ∨ upgradeToPreReleases = true)

/-- The release is eligible: its tag is not empty, it has an asset for this
platform, and it is not a pre-release unless pre-releases are allowed. -/
def EligibleRelease (releaseNames : String → List String) (upgradeToPreReleases : Bool)
    (rel : Release) : Prop :=
  rel.Tag ≠ "" ∧ Selectable releaseNames upgradeToPreReleases rel

/-! ## Theorems -/

/-! ### The insertion sort meets the contract of `sort.Sort` -/

theorem insertionStep_perm {α : Type} (less : α → α → Bool) (x : α) (l : List α) :
    (insertionStep less x l).Perm (x :: l) := by
  induction l with
  | nil => simp [insertionStep]
  | cons y ys ih =>
    unfold insertionStep
    split
    · exact (List.Perm.cons y ih).trans (List.Perm.swap x y ys)
    · exact List.Perm.refl _

theorem insertionFold_perm {α : Type} (less : α → α → Bool) (l acc : List α) :
    (l.foldl (fun acc x => insertionStep less x acc) acc).Perm (l ++ acc) := by
  induction l generalizing acc with
  | nil => simp
  | cons x xs ih =>
    simp only [List.foldl_cons]
    refine (ih _).trans ?_
    refine (List.Perm.append_left xs (insertionStep_perm less x acc)).trans ?_
    simp

theorem insertionSort_perm {α : Type} (less : α → α → Bool) (l : List α) :
    (insertionSort less l).Perm l := by
  unfold insertionSort
  refine (List.reverse_perm _).trans ?_
  simpa using insertionFold_perm less l []

theorem insertionStep_pairwise {α : Type} (less : α → α → Bool)
    (hasymm : ∀ a b, less a b = true → less b a = false)
    (hneg : ∀ a b c, less a b = false → less b c = false → less a c = false)
    (x : α) (l : List α) (hl : l.Pairwise (fun a b => less a b = false)) :
    (insertionStep less x l).Pairwise (fun a b => less a b = false) := by
  induction l with
  | nil => simp [insertionStep]
  | cons y ys ih =>
    rw [List.pairwise_cons] at hl
    unfold insertionStep
    split
    · rename_i hxy
      rw [List.pairwise_cons]
      refine ⟨?_, ih hl.2⟩
      intro z hz
      have hz2 : z ∈ x :: ys := (insertionStep_perm less x ys).mem_iff.mp hz
      rcases List.mem_cons.mp hz2 with rfl | hz3
      · exact hasymm _ _ hxy
      · exact hl.1 z hz3
    · rename_i hxy
      have hxy2 : less x y = false := by simpa using hxy
      rw [List.pairwise_cons]
      refine ⟨?_, List.pairwise_cons.mpr hl⟩
      intro z hz
      rcases List.mem_cons.mp hz with rfl | hz3
      · exact hxy2
      · exact hneg _ _ _ hxy2 (hl.1 z hz3)

theorem insertionFold_pairwise {α : Type} (less : α → α → Bool)
    (hasymm : ∀ a b, less a b = true → less b a = false)
    (hneg : ∀ a b c, less a b = false → less b c = false → less a c = false)
    (l acc : List α) (hacc : acc.Pairwise (fun a b => less a b = false)) :
    (l.foldl (fun acc x => insertionStep less x acc) acc).Pairwise
      (fun a b => less a b = false) := by
  induction l generalizing acc with
  | nil => simpa using hacc
  | cons x xs ih =>
    simp only [List.foldl_cons]
    exact ih _ (insertionStep_pairwise less hasymm hneg x acc hacc)

theorem insertionSort_contract : SortContract insertionSort := by
  constructor
  · intro less l
    exact insertionSort_perm less l
  · intro less l hasymm hneg
    unfold insertionSort
    rw [List.pairwise_reverse]
    exact insertionFold_pairwise less hasymm hneg l [] List.Pairwise.nil

/-! ### The comparator is a total preorder -/

theorem IsThreeWay.lt_le {α : Type} {c : α → α → Int} (h : IsThreeWay c) (a b d : α)
    (h1 : c a b < 0) (h2 : c b d ≤ 0) : c a d < 0 := by
  by_contra hn
  have h3 : c d a ≤ 0 := by
    have := h.anti d a
    have := h.anti a d
    omega
  have h4 := h.trans b d a h2 h3
  have := h.anti a b
  omega

theorem IsThreeWay.le_lt {α : Type} {c : α → α → Int} (h : IsThreeWay c) (a b d : α)
    (h1 : c a b ≤ 0) (h2 : c b d < 0) : c a d < 0 := by
  by_contra hn
  have h3 : c d a ≤ 0 := by
    have := h.anti d a
    have := h.anti a d
    omega
  have h4 := h.trans d a b h3 h1
  have := h.anti b d
  omega

theorem threeWay_isThreeWay : IsThreeWay threeWay := by
  constructor
  · intro a b
    unfold threeWay
    split_ifs <;> omega
  · intro a b d
    unfold threeWay
    split_ifs <;> omega

theorem compareLists_anti {α : Type} {c : α → α → Int} (h : IsThreeWay c) :
    ∀ l m : List α, compareLists c l m < 0 ↔ 0 < compareLists c m l
  | [], [] => by simp [compareLists]
  | [], _ :: _ => by simp [compareLists]
  | _ :: _, [] => by simp [compareLists]
  | a :: as, b :: bs => by
    have ih := compareLists_anti h as bs
    have h1 := h.anti a b
    have h2 := h.anti b a
    simp only [compareLists]
    split_ifs <;> omega

theorem compareLists_trans {α : Type} {c : α → α → Int} (h : IsThreeWay c) :
    ∀ l m n : List α, compareLists c l m ≤ 0 → compareLists c m n ≤ 0 →
      compareLists c l n ≤ 0
  | [], [], [] => by simp [compareLists]
  | [], [], _ :: _ => by simp [compareLists]
  | [], _ :: _, [] => by simp [compareLists]
  | [], _ :: _, _ :: _ => by simp [compareLists]
  | _ :: _, [], _ => by simp [compareLists]
  | _ :: _, _ :: _, [] => by
    intro _ h2
    simp [compareLists] at h2
  | a :: as, b :: bs, d :: ds => by
    have ih := compareLists_trans h as bs ds
    have t1 := h.trans a b d
    have t2 := fun x y => h.lt_le a b d x y
    have t3 := fun x y => h.le_lt a b d x y
    simp only [compareLists]
    intro h1 h2
    by_cases hab : c a b < 0
    · have hbd : c b d ≤ 0 := by
        by_contra hn
        rw [if_neg (by omega), if_pos (by omega)] at h2
        omega
      have := t2 hab hbd
      rw [if_pos this]
      omega
    · have hab0 : c a b = 0 := by
        by_contra hn
        rw [if_neg hab, if_pos (by omega)] at h1
        omega
      rw [if_neg hab, if_neg (by omega)] at h1
      by_cases hbd : c b d < 0
      · have := t3 (by omega) hbd
        rw [if_pos this]
        omega
      · have hbd0 : c b d = 0 := by
          by_contra hn
          rw [if_neg hbd, if_pos (by omega)] at h2
          omega
        rw [if_neg hbd, if_neg (by omega)] at h2
        have had := t1 (by omega) (by omega)
        by_cases had2 : c a d < 0
        · rw [if_pos had2]
          omega
        · rw [if_neg had2, if_neg (by omega)]
          exact ih h1 h2

theorem compareLists_isThreeWay {α : Type} {c : α → α → Int} (h : IsThreeWay c) :
    IsThreeWay (compareLists c) :=
  ⟨compareLists_anti h, compareLists_trans h⟩

theorem lexThreeWay_isThreeWay {α β : Type} {c1 : α → α → Int} {c2 : β → β → Int}
    (h1 : IsThreeWay c1) (h2 : IsThreeWay c2) : IsThreeWay (lexThreeWay c1 c2) := by
  constructor
  · intro x y
    have a1 := h1.anti x.1 y.1
    have a2 := h1.anti y.1 x.1
    have a3 := h2.anti x.2 y.2
    unfold lexThreeWay
    split_ifs <;> omega
  · intro x y z
    have t1 := h1.trans x.1 y.1 z.1
    have t2 := fun p q => h1.lt_le x.1 y.1 z.1 p q
    have t3 := fun p q => h1.le_lt x.1 y.1 z.1 p q
    have t4 := h2.trans x.2 y.2 z.2
    unfold lexThreeWay
    intro p q
    by_cases hxy : c1 x.1 y.1 < 0
    · have hyz : c1 y.1 z.1 ≤ 0 := by
        by_contra hn
        rw [if_neg (by omega), if_pos (by omega)] at q
        omega
      rw [if_pos (t2 hxy hyz)]
      omega
    · have hxy0 : c1 x.1 y.1 = 0 := by
        by_contra hn
        rw [if_neg hxy, if_pos (by omega)] at p
        omega
      rw [if_neg hxy, if_neg (by omega)] at p
      by_cases hyz : c1 y.1 z.1 < 0
      · rw [if_pos (t3 (by omega) hyz)]
        omega
      · have hyz0 : c1 y.1 z.1 = 0 := by
          by_contra hn
          rw [if_neg hyz, if_pos (by omega)] at q
          omega
        rw [if_neg hyz, if_neg (by omega)] at q
        have hxz := t1 (by omega) (by omega)
        by_cases hxz2 : c1 x.1 z.1 < 0
        · rw [if_pos hxz2]
          omega
        · rw [if_neg hxz2, if_neg (by omega)]
          exact t4 p q

theorem IsThreeWay.comap {α β : Type} {c : β → β → Int} (h : IsThreeWay c) (f : α → β) :
    IsThreeWay (fun x y => c (f x) (f y)) :=
  ⟨fun a b => h.anti (f a) (f b), fun a b d => h.trans (f a) (f b) (f d)⟩


theorem compareText_isThreeWay : IsThreeWay compareText :=
  compareLists_isThreeWay (threeWay_isThreeWay.comap (fun a : Char => (a.toNat : Int)))

theorem preFieldCompare_isThreeWay : IsThreeWay preFieldCompare := by
  have hi := threeWay_isThreeWay
  have ht := compareText_isThreeWay
  constructor
  · intro a b
    cases a <;> cases b <;> simp [preFieldCompare]
    · exact hi.anti _ _
    · exact ht.anti _ _
  · intro a b d
    cases a <;> cases b <;> cases d <;> simp [preFieldCompare]
    · exact hi.trans _ _ _
    · exact ht.trans _ _ _

theorem keyCompare_isThreeWay : IsThreeWay keyCompare := by
  have h := lexThreeWay_isThreeWay (compareLists_isThreeWay threeWay_isThreeWay)
    (lexThreeWay_isThreeWay
      (threeWay_isThreeWay.comap
        (fun p : List PreField => if p.length = 0 then (1 : Int) else 0))
      (compareLists_isThreeWay preFieldCompare_isThreeWay))
  exact h.comap (fun k : List Int × List PreField => (k.1, k.2, k.2))

theorem compareRelease_some (first : Bool) (as bs : List Int) (r : Relation)
    (h : compareRelease first as bs = some r) :
    (r.toInt < 0 ∧ compareLists threeWay as bs < 0)
      ∨ (0 < r.toInt ∧ 0 < compareLists threeWay as bs) := by
  induction as generalizing first bs with
  | nil => simp [compareRelease] at h
  | cons a as ih =>
    cases bs with
    | nil => simp [compareRelease] at h
    | cons b bs =>
      simp only [compareRelease] at h
      simp only [compareLists, threeWay]
      by_cases hab : a < b
      · left
        rw [if_pos hab] at h
        constructor
        · split_ifs at h <;> cases h <;> decide
        · simp [hab]
      · rw [if_neg hab] at h
        by_cases hba : b < a
        · right
          rw [if_pos hba] at h
          constructor
          · split_ifs at h <;> cases h <;> decide
          · simp [hab, hba]
        · rw [if_neg hba] at h
          simpa [hab, hba] using ih false bs h

theorem compareRelease_none (first : Bool) (as bs : List Int)
    (h : compareRelease first as bs = none) :
    (compareLists threeWay as bs < 0 ↔ as.length < bs.length)
      ∧ (0 < compareLists threeWay as bs ↔ bs.length < as.length) := by
  induction as generalizing first bs with
  | nil => cases bs <;> simp [compareLists]
  | cons a as ih =>
    cases bs with
    | nil => simp [compareLists]
    | cons b bs =>
      simp only [compareRelease] at h
      by_cases hab : a < b
      · rw [if_pos hab] at h
        split_ifs at h
      · rw [if_neg hab] at h
        by_cases hba : b < a
        · rw [if_pos hba] at h
          split_ifs at h
        · rw [if_neg hba] at h
          simpa [compareLists, threeWay, hab, hba] using ih false bs h

theorem comparePrerelease_some (as bs : List PreField) (r : Relation)
    (h : comparePrerelease as bs = some r) :
    (r.toInt < 0 ∧ compareLists preFieldCompare as bs < 0)
      ∨ (0 < r.toInt ∧ 0 < compareLists preFieldCompare as bs) := by
  induction as generalizing bs with
  | nil => simp [comparePrerelease] at h
  | cons a as ih =>
    cases bs with
    | nil => simp [comparePrerelease] at h
    | cons b bs =>
      cases a with
      | num x =>
        cases b with
        | num y =>
          simp only [comparePrerelease] at h
          simp only [compareLists, preFieldCompare, threeWay]
          by_cases hab : x < y
          · left
            rw [if_pos hab] at h
            cases h
            exact ⟨by decide, by simp [hab]⟩
          · rw [if_neg hab] at h
            by_cases hba : y < x
            · right
              rw [if_pos hba] at h
              cases h
              exact ⟨by decide, by simp [hab, hba]⟩
            · rw [if_neg hba] at h
              simpa [hab, hba] using ih bs h
        | text t =>
          simp only [comparePrerelease] at h
          cases h
          left
          exact ⟨by decide, by simp [compareLists, preFieldCompare]⟩
      | text s =>
        cases b with
        | num y =>
          simp only [comparePrerelease] at h
          cases h
          right
          exact ⟨by decide, by simp [compareLists, preFieldCompare]⟩
        | text t =>
          simp only [comparePrerelease] at h
          simp only [compareLists, preFieldCompare]
          by_cases hab : compareText s t < 0
          · left
            rw [if_pos hab] at h
            cases h
            exact ⟨by decide, by simp [hab]⟩
          · rw [if_neg hab] at h
            by_cases hba : 0 < compareText s t
            · right
              rw [if_pos hba] at h
              cases h
              exact ⟨by decide, by simp [hab, hba]⟩
            · rw [if_neg hba] at h
              simpa [hab, hba] using ih bs h

theorem comparePrerelease_none (as bs : List PreField)
    (h : comparePrerelease as bs = none) :
    (compareLists preFieldCompare as bs < 0 ↔ as.length < bs.length)
      ∧ (0 < compareLists preFieldCompare as bs ↔ bs.length < as.length) := by
  induction as generalizing bs with
  | nil => cases bs <;> simp [compareLists]
  | cons a as ih =>
    cases bs with
    | nil => simp [compareLists]
    | cons b bs =>
      cases a with
      | num x =>
        cases b with
        | num y =>
          simp only [comparePrerelease] at h
          by_cases hab : x < y
          · rw [if_pos hab] at h
            cases h
          · rw [if_neg hab] at h
            by_cases hba : y < x
            · rw [if_pos hba] at h
              cases h
            · rw [if_neg hba] at h
              simpa [compareLists, preFieldCompare, threeWay, hab, hba] using ih bs h
        | text t => simp [comparePrerelease] at h
      | text s =>
        cases b with
        | num y => simp [comparePrerelease] at h
        | text t =>
          simp only [comparePrerelease] at h
          by_cases hab : compareText s t < 0
          · rw [if_pos hab] at h
            cases h
          · rw [if_neg hab] at h
            by_cases hba : 0 < compareText s t
            · rw [if_pos hba] at h
              cases h
            · rw [if_neg hba] at h
              simpa [compareLists, preFieldCompare, hab, hba] using ih bs h


/-- The answer of `CompareVersions` has the sign of the order of the tags. -/
theorem compareVersions_sign (a b : String) :
    ((CompareVersions a b).toInt < 0 ↔ keyCompare (versionParts a) (versionParts b) < 0)
      ∧ (0 < (CompareVersions a b).toInt
          ↔ 0 < keyCompare (versionParts a) (versionParts b)) := by
  unfold CompareVersions keyCompare lexThreeWay
  generalize versionParts a = pa
  generalize versionParts b = pb
  obtain ⟨ar, ap⟩ := pa
  obtain ⟨br, bp⟩ := pb
  simp only
  cases hr : compareRelease true ar br with
  | some r =>
    simp only
    rcases compareRelease_some true ar br r hr with ⟨h1, h2⟩ | ⟨h1, h2⟩
    · rw [if_pos h2]
      omega
    · rw [if_neg (by omega), if_pos h2]
      omega
  | none =>
    simp only
    obtain ⟨n1, n2⟩ := compareRelease_none true ar br hr
    by_cases hl : ar.length < br.length
    · rw [if_pos hl, if_pos (n1.mpr hl)]
      simp [Relation.toInt]
    · rw [if_neg hl, if_neg (fun h => hl (n1.mp h))]
      by_cases hg : br.length < ar.length
      · rw [if_pos hg, if_pos (n2.mpr hg)]
        simp [Relation.toInt]
      · rw [if_neg hg, if_neg (fun h => hg (n2.mp h))]
        by_cases he1 : ap.length = 0 ∧ 0 < bp.length
        · rw [if_pos he1]
          have e1 : ap.length = 0 := he1.1
          have e2 : ¬ bp.length = 0 := by omega
          simp [threeWay, e1, e2, Relation.toInt]
        · rw [if_neg he1]
          by_cases he2 : 0 < ap.length ∧ bp.length = 0
          · rw [if_pos he2]
            have e1 : ¬ ap.length = 0 := by omega
            have e2 : bp.length = 0 := he2.2
            simp [threeWay, e1, e2, Relation.toInt]
          · rw [if_neg he2]
            have hflag : threeWay (if ap.length = 0 then 1 else 0)
                (if bp.length = 0 then 1 else 0) = 0 := by
              unfold threeWay
              split_ifs <;> omega
            rw [hflag]
            simp only [lt_irrefl, if_false]
            cases hp : comparePrerelease ap bp with
            | some r =>
              simp only
              rcases comparePrerelease_some ap bp r hp with ⟨h1, h2⟩ | ⟨h1, h2⟩ <;> omega
            | none =>
              simp only
              obtain ⟨m1, m2⟩ := comparePrerelease_none ap bp hp
              by_cases hl2 : ap.length < bp.length
              · rw [if_pos hl2]
                have := m1.mpr hl2
                simp [Relation.toInt]
                omega
              · rw [if_neg hl2]
                by_cases hg2 : bp.length < ap.length
                · rw [if_pos hg2]
                  have := m2.mpr hg2
                  simp [Relation.toInt]
                  omega
                · rw [if_neg hg2]
                  have c1 : ¬ compareLists preFieldCompare ap bp < 0 := fun h => hl2 (m1.mp h)
                  have c2 : ¬ 0 < compareLists preFieldCompare ap bp := fun h => hg2 (m2.mp h)
                  simp [Relation.toInt]
                  omega

theorem compareVersions_preorder : IsTotalPreorder CompareVersions := by
  have hk := keyCompare_isThreeWay
  constructor
  · intro a b
    have h1 := (compareVersions_sign a b).2
    have h2 := (compareVersions_sign b a).1
    have h3 := hk.anti (versionParts b) (versionParts a)
    rw [h1, h2, h3]
  · intro a b c hab hbc
    have s1 := (compareVersions_sign a b).1
    have s2 := (compareVersions_sign b c).1
    have s3 := (compareVersions_sign a c).1
    have k1 := hk.anti (versionParts a) (versionParts b)
    have k2 := hk.anti (versionParts b) (versionParts c)
    have k3 := hk.anti (versionParts a) (versionParts c)
    have k4 := hk.anti (versionParts c) (versionParts b)
    have k5 := hk.anti (versionParts b) (versionParts a)
    have k6 := hk.anti (versionParts c) (versionParts a)
    have t := hk.trans (versionParts c) (versionParts b) (versionParts a)
    by_contra hn
    have hac : keyCompare (versionParts a) (versionParts c) < 0 := s3.mp (by omega)
    have hcb : keyCompare (versionParts c) (versionParts b) ≤ 0 := by
      by_contra hx
      have : keyCompare (versionParts b) (versionParts c) < 0 := k2.mpr (by omega)
      have := s2.mpr this
      omega
    have hba : keyCompare (versionParts b) (versionParts a) ≤ 0 := by
      by_contra hx
      have : keyCompare (versionParts a) (versionParts b) < 0 := k1.mpr (by omega)
      have := s1.mpr this
      omega
    have := t hcb hba
    have := k3.mp hac
    omega


theorem compareRelease_false (as bs : List Int) (r : Relation)
    (h : compareRelease false as bs = some r) : r = Relation.Older ∨ r = Relation.Newer := by
  induction as generalizing bs with
  | nil => simp [compareRelease] at h
  | cons a as ih =>
    cases bs with
    | nil => simp [compareRelease] at h
    | cons b bs =>
      simp only [compareRelease] at h
      by_cases hab : a < b
      · rw [if_pos hab] at h
        simp at h
        left; exact h.symm
      · rw [if_neg hab] at h
        by_cases hba : b < a
        · rw [if_pos hba] at h
          simp at h
          right; exact h.symm
        · rw [if_neg hba] at h
          exact ih bs h

theorem comparePrerelease_minor (as bs : List PreField) (r : Relation)
    (h : comparePrerelease as bs = some r) : r = Relation.Older ∨ r = Relation.Newer := by
  induction as generalizing bs with
  | nil => simp [comparePrerelease] at h
  | cons a as ih =>
    cases bs with
    | nil => simp [comparePrerelease] at h
    | cons b bs =>
      cases a <;> cases b <;> simp only [comparePrerelease] at h
      · split_ifs at h
        · cases h; left; rfl
        · cases h; right; rfl
        · exact ih bs h
      · cases h; left; rfl
      · cases h; right; rfl
      · split_ifs at h
        · cases h; left; rfl
        · cases h; right; rfl
        · exact ih bs h

/-- The tail of `CompareVersions`, after the release numbers agreed on their
common fields, never answers `MajorNewer`. -/
theorem compareVersions_tail (ar br : List Int) (ap bp : List PreField) (r : Relation)
    (h : (if ar.length < br.length then Relation.Older
      else if br.length < ar.length then Relation.Newer
      else if ap.length = 0 ∧ 0 < bp.length then Relation.Newer
      else if 0 < ap.length ∧ bp.length = 0 then Relation.Older
      else
        match comparePrerelease ap bp with
        | some r => r
        | none =>
          if ap.length < bp.length then Relation.Older
          else if bp.length < ap.length then Relation.Newer
          else Relation.Equal) = r) :
    r ≠ Relation.MajorNewer := by
  cases hp : comparePrerelease ap bp with
  | none =>
    simp only [hp] at h
    split_ifs at h <;> (rw [← h]; decide)
  | some q =>
    simp only [hp] at h
    have hq := comparePrerelease_minor ap bp q hp
    split_ifs at h <;> rw [← h] <;>
      first
        | decide
        | (rcases hq with hq | hq <;> rw [hq] <;> decide)

theorem compareVersions_majorNewer_head (a c : String)
    (h : CompareVersions a c = Relation.MajorNewer) :
    ∃ x xs y ys, (versionParts a).1 = x :: xs ∧ (versionParts c).1 = y :: ys
      ∧ y < x ∧ ¬ (x = 1 ∧ y = 0) := by
  unfold CompareVersions at h
  simp only at h
  cases hr : compareRelease true (versionParts a).1 (versionParts c).1 with
  | none =>
    rw [hr] at h
    simp only at h
    exact absurd rfl (compareVersions_tail _ _ _ _ _ h)
  | some r =>
    rw [hr] at h
    simp only at h
    subst h
    cases ha : (versionParts a).1 with
    | nil => rw [ha] at hr; simp [compareRelease] at hr
    | cons x xs =>
      cases hc : (versionParts c).1 with
      | nil => rw [ha, hc] at hr; simp [compareRelease] at hr
      | cons y ys =>
        rw [ha, hc] at hr
        simp only [compareRelease, if_true] at hr
        refine ⟨x, xs, y, ys, rfl, rfl, ?_⟩
        by_cases hxy : x < y
        · rw [if_pos hxy] at hr
          split_ifs at hr <;> cases hr
        · rw [if_neg hxy] at hr
          by_cases hyx : y < x
          · rw [if_pos hyx] at hr
            refine ⟨hyx, ?_⟩
            intro hs
            rw [if_pos hs] at hr
            cases hr
          · rw [if_neg hyx] at hr
            rcases compareRelease_false xs ys _ hr with h1 | h1 <;> cases h1

theorem compareVersions_newer_head (b c : String) (y : Int) (ys : List Int)
    (hc : (versionParts c).1 = y :: ys)
    (h : CompareVersions b c = Relation.Newer) :
    ∃ x xs, (versionParts b).1 = x :: xs ∧ (x = y ∨ (x = 1 ∧ y = 0)) := by
  unfold CompareVersions at h
  simp only at h
  rw [hc] at h
  cases hb : (versionParts b).1 with
  | nil =>
    rw [hb] at h
    simp [compareRelease] at h
  | cons x xs =>
    refine ⟨x, xs, rfl, ?_⟩
    rw [hb] at h
    simp only [compareRelease, if_true] at h
    by_cases hxy : x < y
    · rw [if_pos hxy] at h
      split_ifs at h
    · rw [if_neg hxy] at h
      by_cases hyx : y < x
      · rw [if_pos hyx] at h
        by_cases hs : x = 1 ∧ y = 0
        · right; exact hs
        · rw [if_neg hs] at h
          cases h
      · left
        omega

/-- Tags `MajorNewer` than `current` rank above tags `Newer` than `current`. -/
theorem compareVersions_major (current a b : String)
    (ha : CompareVersions a current = Relation.MajorNewer)
    (hb : CompareVersions b current = Relation.Newer) :
    0 < (CompareVersions a b).toInt := by
  obtain ⟨x, xs, y, ys, hax, hcy, hlt, hsp⟩ := compareVersions_majorNewer_head a current ha
  obtain ⟨z, zs, hbz, hz⟩ := compareVersions_newer_head b current y ys hcy hb
  rw [(compareVersions_sign a b).2]
  unfold keyCompare lexThreeWay
  simp only [hax, hbz, compareLists, threeWay]
  have hzx : z < x := by
    rcases hz with h1 | ⟨h1, h2⟩
    · omega
    · omega
  have hxz : ¬ x < z := by omega
  simp [hzx, hxz]

theorem compareVersions_refl (x : String) : CompareVersions x x = Relation.Equal := by
  have h1 := (compareVersions_preorder.antisymm x x)
  cases h : CompareVersions x x <;> rw [h] at h1 <;> simp [Relation.toInt] at h1 ⊢

/-! ### The selector -/


/-- The library test `strings.HasPrefix(s, prefix)` holds exactly when `s` is
`prefix` followed by some text. -/
theorem stringsHasPrefix_iff (s pre : String) :
    stringsHasPrefix s pre = true ↔ ∃ rest : String, s = pre ++ rest := by
  unfold stringsHasPrefix
  rw [List.isPrefixOf_iff_prefix]
  constructor
  · rintro ⟨t, ht⟩
    refine ⟨String.mk t, ?_⟩
    apply String.ext
    rw [String.data_append]
    exact ht.symm
  · rintro ⟨rest, hrest⟩
    refine ⟨rest.data, ?_⟩
    rw [hrest, String.data_append]

/-- The asset loop of the selector finds a match exactly when the release has
an asset named for this platform. -/
theorem hasMatchingAsset_iff (names : String → List String) (rel : Release) :
    hasMatchingAsset names rel = true ↔ HasNamedAsset names rel := by
  unfold hasMatchingAsset HasNamedAsset
  simp only [List.any_eq_true, stringsHasPrefix_iff]

theorem candidate_iff (names : String → List String) (pre : Bool) (rel : Release) :
    Candidate names pre rel ↔ Selectable names pre rel := by
  unfold Candidate Selectable
  rw [hasMatchingAsset_iff]

theorem eligible_iff (names : String → List String) (pre : Bool) (rel : Release) :
    Eligible names pre rel ↔ EligibleRelease names pre rel := by
  unfold Eligible EligibleRelease
  rw [candidate_iff]

section LoopLemmas

variable (cmp : String → String → Relation) (names : String → List String)
variable (current : String) (pre : Bool)

theorem selectLoop_nil (sel : Release) :
    selectLoop cmp names current pre [] sel = selectFinish sel := by
  simp [selectLoop]

/-- The early return of the loop. -/
theorem selectLoop_cons_return (rel sel : Release) (rest : List Release)
    (h : cmp rel.Tag current = Relation.MajorNewer ∧ sel.Tag ≠ ""
      ∧ cmp sel.Tag current = Relation.Newer) :
    selectLoop cmp names current pre (rel :: rest) sel = (sel, none) := by
  rw [selectLoop, if_pos h]

/-- An iteration on a candidate that does not return early selects it. -/
theorem selectLoop_cons_take (rel sel : Release) (rest : List Release)
    (h : ¬ (cmp rel.Tag current = Relation.MajorNewer ∧ sel.Tag ≠ ""
      ∧ cmp sel.Tag current = Relation.Newer))
    (hc : Candidate names pre rel) :
    selectLoop cmp names current pre (rel :: rest) sel
      = selectLoop cmp names current pre rest rel := by
  rw [selectLoop, if_neg h]
  rcases hc with ⟨hm, hp | hp⟩ <;> simp [hm, hp]

/-- An iteration on a release that is not a candidate keeps the accumulator. -/
theorem selectLoop_cons_skip (rel sel : Release) (rest : List Release)
    (h : ¬ (cmp rel.Tag current = Relation.MajorNewer ∧ sel.Tag ≠ ""
      ∧ cmp sel.Tag current = Relation.Newer))
    (hc : ¬ Candidate names pre rel) :
    selectLoop cmp names current pre (rel :: rest) sel
      = selectLoop cmp names current pre rest sel := by
  rw [selectLoop, if_neg h]
  unfold Candidate at hc
  split_ifs with h1 h2
  · rfl
  · exfalso
    apply hc
    refine ⟨h2, ?_⟩
    cases hr : rel.Prerelease <;> cases hq : pre <;> simp_all
  · rfl

theorem selectFinish_of_tag (sel : Release) (h : sel.Tag ≠ "") :
    selectFinish sel = (sel, none) := by
  simp [selectFinish, h]

theorem selectFinish_of_empty (sel : Release) (h : sel.Tag = "") :
    selectFinish sel = (Release.zero, some Error.ErrNoReleaseDownload) := by
  simp [selectFinish, h]

/-- Whatever the list and the accumulator, the loop ends either with
`ErrNoReleaseDownload` and the empty release or with a release whose tag is not
empty and no error. -/
theorem selectLoop_cases (l : List Release) (sel : Release) :
    selectLoop cmp names current pre l sel = (Release.zero, some Error.ErrNoReleaseDownload)
      ∨ ((selectLoop cmp names current pre l sel).2 = none
          ∧ (selectLoop cmp names current pre l sel).1.Tag ≠ "") := by
  induction l generalizing sel with
  | nil =>
    rw [selectLoop_nil]
    by_cases h : sel.Tag = ""
    · left; exact selectFinish_of_empty sel h
    · right; rw [selectFinish_of_tag sel h]; exact ⟨rfl, h⟩
  | cons rel rest ih =>
    by_cases h : cmp rel.Tag current = Relation.MajorNewer ∧ sel.Tag ≠ ""
        ∧ cmp sel.Tag current = Relation.Newer
    · right
      rw [selectLoop_cons_return cmp names current pre rel sel rest h]
      exact ⟨rfl, h.2.1⟩
    · by_cases hc : Candidate names pre rel
      · rw [selectLoop_cons_take cmp names current pre rel sel rest h hc]
        exact ih rel
      · rw [selectLoop_cons_skip cmp names current pre rel sel rest h hc]
        exact ih sel

/-- With a selected release and no empty tag among the candidates, the loop
succeeds. -/
theorem selectLoop_ok_of_selected (l : List Release) (sel : Release)
    (htag : ∀ x ∈ l, Candidate names pre x → x.Tag ≠ "") (hsel : sel.Tag ≠ "") :
    (selectLoop cmp names current pre l sel).2 = none := by
  induction l generalizing sel with
  | nil => rw [selectLoop_nil, selectFinish_of_tag sel hsel]
  | cons rel rest ih =>
    have htag2 : ∀ x ∈ rest, Candidate names pre x → x.Tag ≠ "" :=
      fun x hx => htag x (List.mem_cons_of_mem _ hx)
    by_cases h : cmp rel.Tag current = Relation.MajorNewer ∧ sel.Tag ≠ ""
        ∧ cmp sel.Tag current = Relation.Newer
    · rw [selectLoop_cons_return cmp names current pre rel sel rest h]
    · by_cases hc : Candidate names pre rel
      · rw [selectLoop_cons_take cmp names current pre rel sel rest h hc]
        exact ih rel htag2 (htag rel (List.mem_cons_self _ _) hc)
      · rw [selectLoop_cons_skip cmp names current pre rel sel rest h hc]
        exact ih sel htag2 hsel

/-- With a candidate in the list and no empty tag among the candidates, the
loop succeeds. -/
theorem selectLoop_ok_of_candidate (l : List Release) (sel : Release)
    (htag : ∀ x ∈ l, Candidate names pre x → x.Tag ≠ "")
    (hex : ∃ x ∈ l, Candidate names pre x) :
    (selectLoop cmp names current pre l sel).2 = none := by
  induction l generalizing sel with
  | nil => obtain ⟨x, hx, _⟩ := hex; cases hx
  | cons rel rest ih =>
    have htag2 : ∀ x ∈ rest, Candidate names pre x → x.Tag ≠ "" :=
      fun x hx => htag x (List.mem_cons_of_mem _ hx)
    by_cases h : cmp rel.Tag current = Relation.MajorNewer ∧ sel.Tag ≠ ""
        ∧ cmp sel.Tag current = Relation.Newer
    · rw [selectLoop_cons_return cmp names current pre rel sel rest h]
    · by_cases hc : Candidate names pre rel
      · rw [selectLoop_cons_take cmp names current pre rel sel rest h hc]
        exact selectLoop_ok_of_selected cmp names current pre rest rel htag2
          (htag rel (List.mem_cons_self _ _) hc)
      · rw [selectLoop_cons_skip cmp names current pre rel sel rest h hc]
        apply ih sel htag2
        obtain ⟨x, hx, hcx⟩ := hex
        rcases List.mem_cons.mp hx with rfl | hx2
        · exact absurd hcx hc
        · exact ⟨x, hx2, hcx⟩

/-- Without a candidate in the list and with nothing selected, the loop fails
with `ErrNoReleaseDownload`. -/
theorem selectLoop_fail_of_none (l : List Release) (sel : Release) (hsel : sel.Tag = "")
    (hno : ∀ x ∈ l, ¬ Candidate names pre x) :
    selectLoop cmp names current pre l sel
      = (Release.zero, some Error.ErrNoReleaseDownload) := by
  induction l with
  | nil => rw [selectLoop_nil, selectFinish_of_empty sel hsel]
  | cons rel rest ih =>
    have h : ¬ (cmp rel.Tag current = Relation.MajorNewer ∧ sel.Tag ≠ ""
        ∧ cmp sel.Tag current = Relation.Newer) := fun h => h.2.1 hsel
    rw [selectLoop_cons_skip cmp names current pre rel sel rest h
      (hno rel (List.mem_cons_self _ _))]
    exact ih (fun x hx => hno x (List.mem_cons_of_mem _ hx))

/-- With pre-releases not allowed the loop never hands back a pre-release. -/
theorem selectLoop_not_prerelease (l : List Release) (sel : Release)
    (hsel : sel.Prerelease = false) :
    (selectLoop cmp names current false l sel).1.Prerelease = false := by
  induction l generalizing sel with
  | nil =>
    rw [selectLoop_nil]
    by_cases h : sel.Tag = ""
    · rw [selectFinish_of_empty sel h]; rfl
    · rw [selectFinish_of_tag sel h]; exact hsel
  | cons rel rest ih =>
    by_cases h : cmp rel.Tag current = Relation.MajorNewer ∧ sel.Tag ≠ ""
        ∧ cmp sel.Tag current = Relation.Newer
    · rw [selectLoop_cons_return cmp names current false rel sel rest h]
      exact hsel
    · by_cases hc : Candidate names false rel
      · rw [selectLoop_cons_take cmp names current false rel sel rest h hc]
        apply ih rel
        rcases hc.2 with hp | hp
        · exact hp
        · cases hp
      · rw [selectLoop_cons_skip cmp names current false rel sel rest h hc]
        exact ih sel hsel

/-- Without a candidate and without a `MajorNewer` release in the list, the
loop ends with the accumulator it started with. -/
theorem selectLoop_no_candidate (l : List Release) (sel : Release)
    (hno : ∀ x ∈ l, ¬ Candidate names pre x)
    (hmaj : ∀ x ∈ l, cmp x.Tag current ≠ Relation.MajorNewer) :
    selectLoop cmp names current pre l sel = selectFinish sel := by
  induction l with
  | nil => rw [selectLoop_nil]
  | cons rel rest ih =>
    have h : ¬ (cmp rel.Tag current = Relation.MajorNewer ∧ sel.Tag ≠ ""
        ∧ cmp sel.Tag current = Relation.Newer) :=
      fun h => hmaj rel (List.mem_cons_self _ _) h.1
    rw [selectLoop_cons_skip cmp names current pre rel sel rest h
      (hno rel (List.mem_cons_self _ _))]
    exact ih (fun x hx => hno x (List.mem_cons_of_mem _ hx))
      (fun x hx => hmaj x (List.mem_cons_of_mem _ hx))

/-- In a total preorder a tag is ranked neither above nor below itself. -/
theorem preorder_refl (hp : IsTotalPreorder cmp) (a : String) :
    (cmp a a).toInt = 0 := by
  have h := hp.antisymm a a
  omega

/-- In a total preorder `a` at most `b` is `b` at least `a`. -/
theorem preorder_flip (hp : IsTotalPreorder cmp) (a b : String)
    (h : (cmp a b).toInt ≤ 0) : 0 ≤ (cmp b a).toInt := by
  have h1 := hp.antisymm a b
  by_contra hneg
  have h2 : (cmp b a).toInt < 0 := by omega
  have h3 := h1.mpr h2
  omega

/-- A tag ranked at least a tag that is above `current` is above `current`. -/
theorem preorder_above (hp : IsTotalPreorder cmp) (a b : String)
    (ha : 0 < (cmp a current).toInt) (hab : (cmp a b).toInt ≤ 0) :
    0 < (cmp b current).toInt := by
  have h1 : 0 ≤ (cmp b a).toInt := preorder_flip cmp hp a b hab
  have h3 : 0 ≤ (cmp b current).toInt := hp.trans b a current h1 (by omega)
  by_contra hneg
  have h4 : (cmp b current).toInt ≤ 0 := by omega
  have h5 : 0 ≤ (cmp current b).toInt := preorder_flip cmp hp b current h4
  have h6 : 0 ≤ (cmp current a).toInt := hp.trans current b a h5 h1
  have h7 := (hp.antisymm a current).mp ha
  omega

/-- A relation with a positive integer is `Newer` or `MajorNewer`. -/
theorem Relation.pos_cases (r : Relation) (h : 0 < r.toInt) :
    r = Relation.Newer ∨ r = Relation.MajorNewer := by
  cases r <;> simp [Relation.toInt] at h ⊢

/-- The sorted list handed to the loop is in ascending order of tags. -/
theorem sorted_ascending
    (sortSort : (Release → Release → Bool) → List Release → List Release)
    (hs : SortContract sortSort) (hp : IsTotalPreorder cmp) (rels : List Release) :
    (sortSort (sortReverse (SortByRelease.Less cmp)) rels).Pairwise
      (fun a b => (cmp a.Tag b.Tag).toInt ≤ 0) := by
  have h := hs.sorted (sortReverse (SortByRelease.Less cmp)) rels ?_ ?_
  · refine h.imp ?_
    intro a b hab
    simpa [sortReverse, SortByRelease.Less] using hab
  · intro a b hab
    simp only [sortReverse, SortByRelease.Less, decide_eq_true_eq, decide_eq_false_iff_not,
      gt_iff_lt, not_lt] at hab ⊢
    have := (hp.antisymm b.Tag a.Tag).mp hab
    omega
  · intro a b c hab hbc
    simp only [sortReverse, SortByRelease.Less, decide_eq_false_iff_not,
      gt_iff_lt, not_lt] at hab hbc ⊢
    have h1 := preorder_flip cmp hp _ _ hab
    have h2 := preorder_flip cmp hp _ _ hbc
    have h3 := hp.trans _ _ _ h1 h2
    by_contra hneg
    have h4 := (hp.antisymm c.Tag a.Tag).mp (by omega)
    omega

/-- On an ascending list, a candidate with an empty tag that ranks strictly
below some release cannot come after it. -/
theorem strictly_above_not_first (rel : Release) (rest : List Release)
    (hsorted : ∀ x ∈ rest, (cmp rel.Tag x.Tag).toInt ≤ 0)
    (x : Release) (hx : x ∈ rest) (ht : x.Tag = "")
    (habove : 0 < (cmp rel.Tag "").toInt) : False := by
  have h := hsorted x hx
  rw [ht] at h
  omega

/-- On an ascending list the loop returns a release `Newer` than `current` as
soon as the accumulator is one, with a tag, that the rest of the list does not
rank below, or the list holds a candidate with a tag that is `Newer` than
`current`; provided that, when the empty tag is `Newer` than `current` and a
candidate carries it, a candidate with a tag that is `Newer` than `current`
ranks strictly above the empty tag. -/
theorem selectLoop_newer (hp : IsTotalPreorder cmp) (l : List Release) (sel : Release)
    (hsorted : l.Pairwise (fun a b => (cmp a.Tag b.Tag).toInt ≤ 0))
    (hempty : cmp "" current = Relation.Newer →
      (∃ x ∈ l, x.Tag = "" ∧ Candidate names pre x) →
      ∃ e ∈ l, Candidate names pre e ∧ e.Tag ≠ "" ∧ cmp e.Tag current = Relation.Newer
        ∧ 0 < (cmp e.Tag "").toInt)
    (h : (sel.Tag ≠ "" ∧ cmp sel.Tag current = Relation.Newer
          ∧ ∀ x ∈ l, (cmp sel.Tag x.Tag).toInt ≤ 0)
        ∨ ∃ e ∈ l, Candidate names pre e ∧ e.Tag ≠ ""
            ∧ cmp e.Tag current = Relation.Newer) :
    ∃ r, selectLoop cmp names current pre l sel = (r, none)
      ∧ cmp r.Tag current = Relation.Newer := by
  induction l generalizing sel with
  | nil =>
    rcases h with ⟨h1, h2, _⟩ | ⟨e, he, _⟩
    · exact ⟨sel, by rw [selectLoop_nil, selectFinish_of_tag sel h1], h2⟩
    · cases he
  | cons rel rest ih =>
    rw [List.pairwise_cons] at hsorted
    have hempty2 : cmp "" current = Relation.Newer →
        (∃ x ∈ rest, x.Tag = "" ∧ Candidate names pre x) →
        ∃ e ∈ rest, Candidate names pre e ∧ e.Tag ≠ ""
          ∧ cmp e.Tag current = Relation.Newer ∧ 0 < (cmp e.Tag "").toInt := by
      intro hn hx
      obtain ⟨x, hxm, hxt, hxc⟩ := hx
      obtain ⟨e, he, hce, hte, hne, hab⟩ :=
        hempty hn ⟨x, List.mem_cons_of_mem _ hxm, hxt, hxc⟩
      rcases List.mem_cons.mp he with rfl | he2
      · exact absurd (strictly_above_not_first cmp e rest hsorted.1 x hxm hxt hab) id
      · exact ⟨e, he2, hce, hte, hne, hab⟩
    by_cases hret : cmp rel.Tag current = Relation.MajorNewer ∧ sel.Tag ≠ ""
        ∧ cmp sel.Tag current = Relation.Newer
    · exact ⟨sel, selectLoop_cons_return cmp names current pre rel sel rest hret, hret.2.2⟩
    · by_cases hc : Candidate names pre rel
      · rw [selectLoop_cons_take cmp names current pre rel sel rest hret hc]
        apply ih rel hsorted.2 hempty2
        have hrel : cmp rel.Tag current = Relation.Newer →
            (rel.Tag ≠ "" ∧ cmp rel.Tag current = Relation.Newer
                ∧ ∀ x ∈ rest, (cmp rel.Tag x.Tag).toInt ≤ 0)
              ∨ ∃ e ∈ rest, Candidate names pre e ∧ e.Tag ≠ ""
                  ∧ cmp e.Tag current = Relation.Newer := by
          intro hn
          by_cases ht : rel.Tag = ""
          · right
            have hn2 : cmp "" current = Relation.Newer := by rw [← ht]; exact hn
            obtain ⟨e, he, hce, hte, hne, _⟩ :=
              hempty hn2 ⟨rel, List.mem_cons_self _ _, ht, hc⟩
            rcases List.mem_cons.mp he with rfl | he2
            · exact absurd ht hte
            · exact ⟨e, he2, hce, hte, hne⟩
          · left
            exact ⟨ht, hn, hsorted.1⟩
        rcases h with ⟨h1, h2, h3⟩ | ⟨e, he, hce, hte, hne⟩
        · apply hrel
          have hpos : 0 < (cmp rel.Tag current).toInt :=
            preorder_above cmp current hp sel.Tag rel.Tag (by rw [h2]; decide)
              (h3 rel (List.mem_cons_self _ _))
          rcases Relation.pos_cases _ hpos with hn | hm
          · exact hn
          · exact absurd ⟨hm, h1, h2⟩ hret
        · rcases List.mem_cons.mp he with rfl | he2
          · left; exact ⟨hte, hne, hsorted.1⟩
          · right; exact ⟨e, he2, hce, hte, hne⟩
      · rw [selectLoop_cons_skip cmp names current pre rel sel rest hret hc]
        apply ih sel hsorted.2 hempty2
        rcases h with ⟨h1, h2, h3⟩ | ⟨e, he, hce, hte, hne⟩
        · left; exact ⟨h1, h2, fun x hx => h3 x (List.mem_cons_of_mem _ hx)⟩
        · rcases List.mem_cons.mp he with rfl | he2
          · exact absurd hce hc
          · right; exact ⟨e, he2, hce, hte, hne⟩

/-- On an ascending list without a `MajorNewer` release and with a candidate,
the loop ends on the statements after it with a candidate of the list that
every candidate of the list ranks at most. -/
theorem selectLoop_highest (hp : IsTotalPreorder cmp) (l : List Release) (sel : Release)
    (hsorted : l.Pairwise (fun a b => (cmp a.Tag b.Tag).toInt ≤ 0))
    (hmaj : ∀ x ∈ l, cmp x.Tag current ≠ Relation.MajorNewer)
    (hex : ∃ e ∈ l, Candidate names pre e) :
    ∃ r, selectLoop cmp names current pre l sel = selectFinish r ∧ r ∈ l
      ∧ Candidate names pre r
      ∧ ∀ e ∈ l, Candidate names pre e → (cmp e.Tag r.Tag).toInt ≤ 0 := by
  induction l generalizing sel with
  | nil => obtain ⟨e, he, _⟩ := hex; cases he
  | cons rel rest ih =>
    rw [List.pairwise_cons] at hsorted
    have hmaj2 : ∀ x ∈ rest, cmp x.Tag current ≠ Relation.MajorNewer :=
      fun x hx => hmaj x (List.mem_cons_of_mem _ hx)
    have hret : ¬ (cmp rel.Tag current = Relation.MajorNewer ∧ sel.Tag ≠ ""
        ∧ cmp sel.Tag current = Relation.Newer) :=
      fun h => hmaj rel (List.mem_cons_self _ _) h.1
    by_cases hc : Candidate names pre rel
    · rw [selectLoop_cons_take cmp names current pre rel sel rest hret hc]
      by_cases hrest : ∃ e ∈ rest, Candidate names pre e
      · obtain ⟨r, hr, hmem, hcr, hmax⟩ := ih rel hsorted.2 hmaj2 hrest
        refine ⟨r, hr, List.mem_cons_of_mem _ hmem, hcr, ?_⟩
        intro e he hce
        rcases List.mem_cons.mp he with rfl | he2
        · exact hsorted.1 r hmem
        · exact hmax e he2 hce
      · have hno : ∀ x ∈ rest, ¬ Candidate names pre x :=
          fun x hx hcx => hrest ⟨x, hx, hcx⟩
        refine ⟨rel, ?_, List.mem_cons_self _ _, hc, ?_⟩
        · rw [selectLoop_no_candidate cmp names current pre rest rel hno hmaj2]
        · intro e he hce
          rcases List.mem_cons.mp he with rfl | he2
          · rw [preorder_refl cmp hp]
          · exact absurd hce (hno e he2)
    · rw [selectLoop_cons_skip cmp names current pre rel sel rest hret hc]
      have hrest : ∃ e ∈ rest, Candidate names pre e := by
        obtain ⟨e, he, hce⟩ := hex
        rcases List.mem_cons.mp he with rfl | he2
        · exact absurd hce hc
        · exact ⟨e, he2, hce⟩
      obtain ⟨r, hr, hmem, hcr, hmax⟩ := ih sel hsorted.2 hmaj2 hrest
      refine ⟨r, hr, List.mem_cons_of_mem _ hmem, hcr, ?_⟩
      intro e he hce
      rcases List.mem_cons.mp he with rfl | he2
      · exact absurd hce hc
      · exact hmax e he2 hce

/-- The releases the loop runs on are the first releases of the list. -/
theorem visitLoop_initial (l : List Release) (sel : Release) :
    visitLoop cmp names current pre l sel <+: l := by
  induction l generalizing sel with
  | nil => simp [visitLoop]
  | cons rel rest ih =>
    rw [visitLoop, List.prefix_cons_inj]
    split_ifs
    · exact List.nil_prefix
    · exact ih sel
    · exact ih rel
    · exact ih sel

end LoopLemmas

section Claims

variable (sortSort : (Release → Release → Bool) → List Release → List Release)
variable (cmp : String → String → Relation) (names : String → List String)

/-- On a non-empty list `SelectLatestRelease` is the loop run on the sorted
list from the empty accumulator. -/
theorem select_eq_loop (rels : List Release) (current : String) (pre : Bool)
    (hne : rels ≠ []) :
    SelectLatestRelease sortSort cmp names rels current pre
      = selectLoop cmp names current pre
          (sortSort (sortReverse (SortByRelease.Less cmp)) rels) Release.zero := by
  unfold SelectLatestRelease
  rw [if_neg]
  simpa using hne

/-- The sorted list holds the releases of the input list. -/
theorem mem_sorted (hs : SortContract sortSort) (less : Release → Release → Bool)
    (rels : List Release) (x : Release) : x ∈ sortSort less rels ↔ x ∈ rels :=
  (hs.perm less rels).mem_iff

/-- C1: on an empty release list `SelectLatestRelease` returns the empty
release together with `ErrNoVersionToSelect`, for every current version and
every value of the pre-release flag. -/
theorem select_empty_fails (current : String) (pre : Bool) :
    SelectLatestRelease sortSort cmp names [] current pre
      = (Release.zero, some Error.ErrNoVersionToSelect) := by
  simp [SelectLatestRelease]


/-- C2: on a non-empty release list `SelectLatestRelease` either fails with
`ErrNoReleaseDownload` (handing back the empty release) or succeeds with a
release whose tag is not empty; the release with the empty tag never comes
with a nil error, neither from the early return nor from the end of the
walk. -/
theorem select_never_sentinel (rels : List Release) (current : String) (pre : Bool)
    (hne : rels ≠ []) :
    SelectLatestRelease sortSort cmp names rels current pre
        = (Release.zero, some Error.ErrNoReleaseDownload)
      ∨ ((SelectLatestRelease sortSort cmp names rels current pre).2 = none
          ∧ (SelectLatestRelease sortSort cmp names rels current pre).1.Tag ≠ "") := by
  rw [select_eq_loop sortSort cmp names rels current pre hne]
  exact selectLoop_cases cmp names current pre _ _

/-- C3 (amended): the comparator is a total preorder on tags and some eligible
release compares `Newer` to `current`; moreover, if a release with an empty tag
has a matching asset, passes the pre-release flag and compares `Newer` to
`current`, then some eligible release that compares `Newer` to `current` ranks
strictly above the empty tag.  Then `SelectLatestRelease` succeeds with a
release that compares `Newer` to `current`, not `MajorNewer`, whatever
`MajorNewer` releases the list holds. -/
theorem select_prefers_newer (rels : List Release) (current : String) (pre : Bool)
    (hs : SortContract sortSort) (hp : IsTotalPreorder cmp)
    (hempty : ∀ x ∈ rels, x.Tag = "" → Selectable names pre x →
      cmp "" current = Relation.Newer →
      ∃ e ∈ rels, EligibleRelease names pre e ∧ cmp e.Tag current = Relation.Newer
        ∧ 0 < (cmp e.Tag "").toInt)
    (hex : ∃ e ∈ rels, EligibleRelease names pre e ∧ cmp e.Tag current = Relation.Newer) :
    ∃ r, SelectLatestRelease sortSort cmp names rels current pre = (r, none)
      ∧ cmp r.Tag current = Relation.Newer
      ∧ cmp r.Tag current ≠ Relation.MajorNewer := by
  obtain ⟨e, he, hel, hnew⟩ := hex
  have hne : rels ≠ [] := List.ne_nil_of_mem he
  rw [select_eq_loop sortSort cmp names rels current pre hne]
  have hel2 := (eligible_iff names pre e).mpr hel
  obtain ⟨r, hr, hrn⟩ := selectLoop_newer cmp names current pre hp
    (sortSort (sortReverse (SortByRelease.Less cmp)) rels) Release.zero
    (sorted_ascending cmp sortSort hs hp rels)
    (by
      rintro hn ⟨x, hx, hxt, hxc⟩
      obtain ⟨e2, he2, hel3, hne2, hab⟩ :=
        hempty x ((mem_sorted sortSort hs _ rels x).mp hx) hxt
          ((candidate_iff names pre x).mp hxc) hn
      have hel4 := (eligible_iff names pre e2).mpr hel3
      exact ⟨e2, (mem_sorted sortSort hs _ rels e2).mpr he2, hel4.2, hel4.1, hne2, hab⟩)
    (Or.inr ⟨e, (mem_sorted sortSort hs _ rels e).mpr he, hel2.2, hel2.1, hnew⟩)
  exact ⟨r, hr, hrn, by rw [hrn]; decide⟩

/-- C4: with `upgradeToPreReleases` false a successful `SelectLatestRelease`
never hands back a pre-release, and on a non-empty list holding only
pre-releases it fails with `ErrNoReleaseDownload`. -/
theorem select_no_prerelease (rels : List Release) (current : String)
    (hs : SortContract sortSort) :
    (∀ r, SelectLatestRelease sortSort cmp names rels current false = (r, none) →
        r.Prerelease = false)
      ∧ (rels ≠ [] → (∀ r ∈ rels, r.Prerelease = true) →
          SelectLatestRelease sortSort cmp names rels current false
            = (Release.zero, some Error.ErrNoReleaseDownload)) := by
  constructor
  · intro r hr
    by_cases hne : rels = []
    · subst hne
      simp [SelectLatestRelease] at hr
    · rw [select_eq_loop sortSort cmp names rels current false hne] at hr
      have h := selectLoop_not_prerelease cmp names current
        (sortSort (sortReverse (SortByRelease.Less cmp)) rels) Release.zero rfl
      rw [hr] at h
      exact h
  · intro hne hall
    rw [select_eq_loop sortSort cmp names rels current false hne]
    apply selectLoop_fail_of_none cmp names current false _ _ rfl
    intro x hx hc
    have hpx := hall x ((mem_sorted sortSort hs _ rels x).mp hx)
    rcases hc.2 with h | h
    · rw [hpx] at h; cases h
    · cases h

/-- C5 (amended): the comparator is a total preorder on tags, no release of
the list compares `MajorNewer` to `current`, and some release is eligible;
moreover, if a release with an empty tag has a matching asset and passes the
pre-release flag, then some eligible release ranks strictly above the empty
tag.  Then `SelectLatestRelease` returns an eligible release of the list that
ranks at least as high as every eligible release of the list. -/
theorem select_highest_eligible (rels : List Release) (current : String) (pre : Bool)
    (hs : SortContract sortSort) (hp : IsTotalPreorder cmp)
    (hmaj : ∀ x ∈ rels, cmp x.Tag current ≠ Relation.MajorNewer)
    (hempty : ∀ x ∈ rels, x.Tag = "" → Selectable names pre x →
      ∃ e ∈ rels, EligibleRelease names pre e ∧ 0 < (cmp e.Tag "").toInt)
    (hex : ∃ e ∈ rels, EligibleRelease names pre e) :
    ∃ r, SelectLatestRelease sortSort cmp names rels current pre = (r, none)
      ∧ r ∈ rels ∧ EligibleRelease names pre r
      ∧ ∀ e ∈ rels, EligibleRelease names pre e → 0 ≤ (cmp r.Tag e.Tag).toInt := by
  obtain ⟨e, he, hel⟩ := hex
  have hne : rels ≠ [] := List.ne_nil_of_mem he
  rw [select_eq_loop sortSort cmp names rels current pre hne]
  have hel2 := (eligible_iff names pre e).mpr hel
  obtain ⟨r, hr, hmem, hcr, hmax⟩ := selectLoop_highest cmp names current pre hp
    (sortSort (sortReverse (SortByRelease.Less cmp)) rels) Release.zero
    (sorted_ascending cmp sortSort hs hp rels)
    (fun x hx => hmaj x ((mem_sorted sortSort hs _ rels x).mp hx))
    ⟨e, (mem_sorted sortSort hs _ rels e).mpr he, hel2.2⟩
  have hmem2 : r ∈ rels := (mem_sorted sortSort hs _ rels r).mp hmem
  have htr : r.Tag ≠ "" := by
    intro ht
    obtain ⟨e3, he3, hel3, hab⟩ := hempty r hmem2 ht ((candidate_iff names pre r).mp hcr)
    have h1 := hmax e3 ((mem_sorted sortSort hs _ rels e3).mpr he3)
      ((eligible_iff names pre e3).mpr hel3).2
    rw [ht] at h1
    omega
  rw [hr, selectFinish_of_tag r htr]
  refine ⟨r, rfl, hmem2, (eligible_iff names pre r).mp ⟨htr, hcr⟩, ?_⟩
  intro e2 he2 hel4
  exact preorder_flip cmp hp _ _
    (hmax e2 ((mem_sorted sortSort hs _ rels e2).mpr he2)
      ((eligible_iff names pre e2).mpr hel4).2)

/-- C6 (amended): when the comparator is a total preorder on tags,
`SelectLatestRelease` sorts the candidates in ascending tag order and walks
them from the lowest tag to the highest: whenever the walk visits `a` before
`b`, `CompareVersions(a.Tag, b.Tag) <= 0`. -/
theorem walk_ascending (rels : List Release) (current : String) (pre : Bool)
    (hs : SortContract sortSort) (hp : IsTotalPreorder cmp) :
    (visitedReleases sortSort cmp names rels current pre).Pairwise
      (fun a b => (cmp a.Tag b.Tag).toInt ≤ 0) := by
  unfold visitedReleases
  split_ifs
  · exact List.Pairwise.nil
  · exact (sorted_ascending cmp sortSort hs hp rels).sublist
      (visitLoop_initial cmp names current pre _ _).sublist

/-- C7: on a list of one release whose tag is not empty, one of whose assets
matches, and which is not a pre-release unless pre-releases are allowed,
`SelectLatestRelease` returns that release and no error, whatever its relation
to `current`. -/
theorem select_single (r : Release) (current : String) (pre : Bool)
    (hs : SortContract sortSort) (htag : r.Tag ≠ "")
    (hm : hasMatchingAsset names r = true)
    (hpre : r.Prerelease = false ∨ pre = true) :
    SelectLatestRelease sortSort cmp names [r] current pre = (r, none) := by
  rw [select_eq_loop sortSort cmp names [r] current pre (by simp)]
  rw [List.perm_singleton.mp (hs.perm _ [r])]
  have hret : ¬ (cmp r.Tag current = Relation.MajorNewer ∧ Release.zero.Tag ≠ ""
      ∧ cmp Release.zero.Tag current = Relation.Newer) := fun h => h.2.1 rfl
  rw [selectLoop_cons_take cmp names current pre r Release.zero [] hret ⟨hm, hpre⟩,
    selectLoop_nil, selectFinish_of_tag r htag]

/-- On a non-empty list whose tags are all non-empty, the call fails with
`ErrNoReleaseDownload` exactly when the loop assigns no release to `selected`,
and succeeds exactly when it assigns one. -/
theorem select_fails_iff_no_candidate (rels : List Release) (current : String) (pre : Bool)
    (hs : SortContract sortSort) (hne : rels ≠ [])
    (htag : ∀ r ∈ rels, r.Tag ≠ "") :
    ((SelectLatestRelease sortSort cmp names rels current pre).2
          = some Error.ErrNoReleaseDownload
        ↔ ¬ ∃ r ∈ rels, Candidate names pre r)
      ∧ ((SelectLatestRelease sortSort cmp names rels current pre).2 = none
        ↔ ∃ r ∈ rels, Candidate names pre r) := by
  rw [select_eq_loop sortSort cmp names rels current pre hne]
  have hyes : (∃ r ∈ rels, Candidate names pre r) →
      (selectLoop cmp names current pre
        (sortSort (sortReverse (SortByRelease.Less cmp)) rels) Release.zero).2 = none := by
    rintro ⟨r, hr, hc⟩
    exact selectLoop_ok_of_candidate cmp names current pre _ _
      (fun x hx _ => htag x ((mem_sorted sortSort hs _ rels x).mp hx))
      ⟨r, (mem_sorted sortSort hs _ rels r).mpr hr, hc⟩
  have hno : (¬ ∃ r ∈ rels, Candidate names pre r) →
      selectLoop cmp names current pre
        (sortSort (sortReverse (SortByRelease.Less cmp)) rels) Release.zero
        = (Release.zero, some Error.ErrNoReleaseDownload) := by
    intro h
    apply selectLoop_fail_of_none cmp names current pre _ _ rfl
    intro x hx hc
    exact h ⟨x, (mem_sorted sortSort hs _ rels x).mp hx, hc⟩
  constructor
  · constructor
    · intro herr hex
      rw [hyes hex] at herr
      cases herr
    · intro h
      rw [hno h]
  · constructor
    · intro hnone
      by_contra h
      rw [hno h] at hnone
      cases hnone
    · exact hyes

/-- C8: on a non-empty list whose tags are all non-empty, `SelectLatestRelease`
fails with `ErrNoReleaseDownload` exactly when no release of the list is
eligible, and succeeds exactly when some release is; eligible meaning that the
base name of some asset is one of `releaseNames(tag)` followed by some text and
that the release is not a pre-release unless pre-releases are allowed. -/
theorem select_fails_iff_none_eligible (rels : List Release) (current : String) (pre : Bool)
    (hs : SortContract sortSort) (hne : rels ≠ [])
    (htag : ∀ r ∈ rels, r.Tag ≠ "") :
    ((SelectLatestRelease sortSort cmp names rels current pre).2
          = some Error.ErrNoReleaseDownload
        ↔ ¬ ∃ r ∈ rels, (∃ asset ∈ r.Assets, ∃ expRel ∈ names r.Tag, ∃ rest : String,
              pathBase asset.Name = expRel ++ rest)
            ∧ (r.Prerelease = false ∨ pre = true))
      ∧ ((SelectLatestRelease sortSort cmp names rels current pre).2 = none
        ↔ ∃ r ∈ rels, (∃ asset ∈ r.Assets, ∃ expRel ∈ names r.Tag, ∃ rest : String,
              pathBase asset.Name = expRel ++ rest)
            ∧ (r.Prerelease = false ∨ pre = true)) := by
  have h := select_fails_iff_no_candidate sortSort cmp names rels current pre hs hne htag
  simp only [candidate_iff, Selectable, HasNamedAsset] at h
  exact h

end Claims

/-! ### The selector on concrete releases -/

/-- C2, an instance: a list of one release with a matching asset. -/
theorem select_never_sentinel_witness :
    [demoRelease "v1.1.0" false "syncthing-linux-amd64-v1.1.0.tar.gz"] ≠ []
      ∧ (SelectLatestRelease insertionSort CompareVersions demoReleaseNames
            [demoRelease "v1.1.0" false "syncthing-linux-amd64-v1.1.0.tar.gz"] "v1.0.0" false
          = (Release.zero, some Error.ErrNoReleaseDownload)
        ∨ ((SelectLatestRelease insertionSort CompareVersions demoReleaseNames
            [demoRelease "v1.1.0" false "syncthing-linux-amd64-v1.1.0.tar.gz"] "v1.0.0" false).2
              = none
          ∧ (SelectLatestRelease insertionSort CompareVersions demoReleaseNames
            [demoRelease "v1.1.0" false "syncthing-linux-amd64-v1.1.0.tar.gz"] "v1.0.0"
              false).1.Tag ≠ "")) :=
  ⟨by decide, select_never_sentinel insertionSort CompareVersions demoReleaseNames
    [demoRelease "v1.1.0" false "syncthing-linux-amd64-v1.1.0.tar.gz"] "v1.0.0" false
    (by decide)⟩

/-- C3, the claim as stated fails: with `current` at `v0-rc1` and pre-releases
allowed, the eligible release `v0-rc2` compares `Newer` to `current`, yet a
release with an empty tag and a matching asset ranks above it (a tag without
pre-release part is newer than `v0-rc2`), becomes the last selection of the
walk, and the call fails with `ErrNoReleaseDownload`. -/
theorem select_newer_shadowed :
    SortContract insertionSort ∧ IsTotalPreorder CompareVersions
      ∧ (∀ a b, CompareVersions a "v0-rc1" = Relation.MajorNewer →
          CompareVersions b "v0-rc1" = Relation.Newer →
          0 < (CompareVersions a b).toInt)
      ∧ (∃ e ∈ [demoRelease "v0-rc2" true "syncthing-linux-amd64-v0-rc2.tar.gz",
                demoRelease "" false "syncthing-linux-amd64-.tar.gz"],
          EligibleRelease demoReleaseNames true e
            ∧ CompareVersions e.Tag "v0-rc1" = Relation.Newer)
      ∧ CompareVersions "" "v0-rc2" = Relation.Newer
      ∧ CompareVersions "" "v0-rc1" = Relation.Newer
      ∧ SelectLatestRelease insertionSort CompareVersions demoReleaseNames
          [demoRelease "v0-rc2" true "syncthing-linux-amd64-v0-rc2.tar.gz",
           demoRelease "" false "syncthing-linux-amd64-.tar.gz"] "v0-rc1" true
        = (Release.zero, some Error.ErrNoReleaseDownload) :=
  ⟨insertionSort_contract, compareVersions_preorder,
    compareVersions_major "v0-rc1",
    ⟨demoRelease "v0-rc2" true "syncthing-linux-amd64-v0-rc2.tar.gz", by decide,
      (eligible_iff _ _ _).mp (by decide), by decide⟩,
    by decide, by decide, by decide⟩

/-- C3, instances: of `v1.2.0` without a matching asset, `v1.1.0` and `v2.0.0`
with one, and `current` at `v1.0.0`, the call returns `v1.1.0`; and of `v1.1.0`
and a release with an empty tag, both with a matching asset, it returns
`v1.1.0` too, the empty tag being `Older` than `current`. -/
theorem select_prefers_newer_witness :
    (SortContract insertionSort ∧ IsTotalPreorder CompareVersions)
      ∧ (∃ r, SelectLatestRelease insertionSort CompareVersions demoReleaseNames
            [demoRelease "v1.2.0" false "syncthing-windows-amd64-v1.2.0.zip",
             demoRelease "v1.1.0" false "syncthing-linux-amd64-v1.1.0.tar.gz",
             demoRelease "v2.0.0" false "syncthing-linux-amd64-v2.0.0.tar.gz"] "v1.0.0" false
              = (r, none)
          ∧ CompareVersions r.Tag "v1.0.0" = Relation.Newer
          ∧ CompareVersions r.Tag "v1.0.0" ≠ Relation.MajorNewer)
      ∧ SelectLatestRelease insertionSort CompareVersions demoReleaseNames
            [demoRelease "v1.2.0" false "syncthing-windows-amd64-v1.2.0.zip",
             demoRelease "v1.1.0" false "syncthing-linux-amd64-v1.1.0.tar.gz",
             demoRelease "v2.0.0" false "syncthing-linux-amd64-v2.0.0.tar.gz"] "v1.0.0" false
          = (demoRelease "v1.1.0" false "syncthing-linux-amd64-v1.1.0.tar.gz", none)
      ∧ (∃ r, SelectLatestRelease insertionSort CompareVersions demoReleaseNames
            [demoRelease "v1.1.0" false "syncthing-linux-amd64-v1.1.0.tar.gz",
             demoRelease "" false "syncthing-linux-amd64-.tar.gz"] "v1.0.0" false
              = (r, none)
          ∧ CompareVersions r.Tag "v1.0.0" = Relation.Newer
          ∧ CompareVersions r.Tag "v1.0.0" ≠ Relation.MajorNewer)
      ∧ SelectLatestRelease insertionSort CompareVersions demoReleaseNames
            [demoRelease "v1.1.0" false "syncthing-linux-amd64-v1.1.0.tar.gz",
             demoRelease "" false "syncthing-linux-amd64-.tar.gz"] "v1.0.0" false
          = (demoRelease "v1.1.0" false "syncthing-linux-amd64-v1.1.0.tar.gz", none) :=
  ⟨⟨insertionSort_contract, compareVersions_preorder⟩,
    select_prefers_newer insertionSort CompareVersions demoReleaseNames
      [demoRelease "v1.2.0" false "syncthing-windows-amd64-v1.2.0.zip",
       demoRelease "v1.1.0" false "syncthing-linux-amd64-v1.1.0.tar.gz",
       demoRelease "v2.0.0" false "syncthing-linux-amd64-v2.0.0.tar.gz"] "v1.0.0" false
      insertionSort_contract compareVersions_preorder
      (fun _ _ _ _ hn => absurd hn (by decide))
      ⟨demoRelease "v1.1.0" false "syncthing-linux-amd64-v1.1.0.tar.gz", by decide,
        (eligible_iff _ _ _).mp (by decide), by decide⟩,
    by decide,
    select_prefers_newer insertionSort CompareVersions demoReleaseNames
      [demoRelease "v1.1.0" false "syncthing-linux-amd64-v1.1.0.tar.gz",
       demoRelease "" false "syncthing-linux-amd64-.tar.gz"] "v1.0.0" false
      insertionSort_contract compareVersions_preorder
      (fun _ _ _ _ hn => absurd hn (by decide))
      ⟨demoRelease "v1.1.0" false "syncthing-linux-amd64-v1.1.0.tar.gz", by decide,
        (eligible_iff _ _ _).mp (by decide), by decide⟩,
    by decide⟩

/-- C4, an instance: the pre-release `v1.1.0-rc1` alone, pre-releases not
allowed, fails with `ErrNoReleaseDownload`. -/
theorem select_no_prerelease_witness :
    SortContract insertionSort
      ∧ SelectLatestRelease insertionSort CompareVersions demoReleaseNames
          [demoRelease "v1.1.0-rc1" true "syncthing-linux-amd64-v1.1.0-rc1.tar.gz"]
          "v1.0.0" false
        = (Release.zero, some Error.ErrNoReleaseDownload) :=
  ⟨insertionSort_contract,
    (select_no_prerelease insertionSort CompareVersions demoReleaseNames
      [demoRelease "v1.1.0-rc1" true "syncthing-linux-amd64-v1.1.0-rc1.tar.gz"]
      "v1.0.0" insertionSort_contract).2 (by decide) (by decide)⟩

/-- C5, the claim as stated fails: with `current` at `v0.1.0` and pre-releases
allowed, no release is `MajorNewer` and `v0-rc1` is eligible, yet a release
with an empty tag and a matching asset ranks above it (a tag without
pre-release part is newer than `v0-rc1`), becomes the last selection of the
walk, and the call fails with `ErrNoReleaseDownload`. -/
theorem select_highest_shadowed :
    SortContract insertionSort ∧ IsTotalPreorder CompareVersions
      ∧ (∀ x ∈ [demoRelease "v0-rc1" true "syncthing-linux-amd64-v0-rc1.tar.gz",
                demoRelease "" false "syncthing-linux-amd64-.tar.gz"],
          CompareVersions x.Tag "v0.1.0" ≠ Relation.MajorNewer)
      ∧ (∃ e ∈ [demoRelease "v0-rc1" true "syncthing-linux-amd64-v0-rc1.tar.gz",
                demoRelease "" false "syncthing-linux-amd64-.tar.gz"],
          EligibleRelease demoReleaseNames true e)
      ∧ CompareVersions "" "v0-rc1" = Relation.Newer
      ∧ SelectLatestRelease insertionSort CompareVersions demoReleaseNames
          [demoRelease "v0-rc1" true "syncthing-linux-amd64-v0-rc1.tar.gz",
           demoRelease "" false "syncthing-linux-amd64-.tar.gz"] "v0.1.0" true
        = (Release.zero, some Error.ErrNoReleaseDownload) :=
  ⟨insertionSort_contract, compareVersions_preorder, by decide,
    ⟨demoRelease "v0-rc1" true "syncthing-linux-amd64-v0-rc1.tar.gz", by decide,
      (eligible_iff _ _ _).mp (by decide)⟩,
    by decide, by decide⟩

/-- C5, instances: of `v1.2.0` and `v1.1.0` with a matching asset and `v1.3.0`
without one, `current` at `v1.0.0`, the call returns `v1.2.0`; and of `v1.1.0`
and a release with an empty tag, both with a matching asset, it returns
`v1.1.0`, which ranks strictly above the empty tag. -/
theorem select_highest_eligible_witness :
    (SortContract insertionSort ∧ IsTotalPreorder CompareVersions)
      ∧ (∃ r, SelectLatestRelease insertionSort CompareVersions demoReleaseNames
            [demoRelease "v1.2.0" false "syncthing-linux-amd64-v1.2.0.tar.gz",
             demoRelease "v1.3.0" false "syncthing-windows-amd64-v1.3.0.zip",
             demoRelease "v1.1.0" false "syncthing-linux-amd64-v1.1.0.tar.gz"] "v1.0.0" false
              = (r, none)
          ∧ r ∈ [demoRelease "v1.2.0" false "syncthing-linux-amd64-v1.2.0.tar.gz",
             demoRelease "v1.3.0" false "syncthing-windows-amd64-v1.3.0.zip",
             demoRelease "v1.1.0" false "syncthing-linux-amd64-v1.1.0.tar.gz"]
          ∧ EligibleRelease demoReleaseNames false r
          ∧ ∀ e ∈ [demoRelease "v1.2.0" false "syncthing-linux-amd64-v1.2.0.tar.gz",
             demoRelease "v1.3.0" false "syncthing-windows-amd64-v1.3.0.zip",
             demoRelease "v1.1.0" false "syncthing-linux-amd64-v1.1.0.tar.gz"],
              EligibleRelease demoReleaseNames false e →
                0 ≤ (CompareVersions r.Tag e.Tag).toInt)
      ∧ SelectLatestRelease insertionSort CompareVersions demoReleaseNames
            [demoRelease "v1.2.0" false "syncthing-linux-amd64-v1.2.0.tar.gz",
             demoRelease "v1.3.0" false "syncthing-windows-amd64-v1.3.0.zip",
             demoRelease "v1.1.0" false "syncthing-linux-amd64-v1.1.0.tar.gz"] "v1.0.0" false
          = (demoRelease "v1.2.0" false "syncthing-linux-amd64-v1.2.0.tar.gz", none)
      ∧ (∃ r, SelectLatestRelease insertionSort CompareVersions demoReleaseNames
            [demoRelease "v1.1.0" false "syncthing-linux-amd64-v1.1.0.tar.gz",
             demoRelease "" false "syncthing-linux-amd64-.tar.gz"] "v1.0.0" false
              = (r, none)
          ∧ r ∈ [demoRelease "v1.1.0" false "syncthing-linux-amd64-v1.1.0.tar.gz",
             demoRelease "" false "syncthing-linux-amd64-.tar.gz"]
          ∧ EligibleRelease demoReleaseNames false r
          ∧ ∀ e ∈ [demoRelease "v1.1.0" false "syncthing-linux-amd64-v1.1.0.tar.gz",
             demoRelease "" false "syncthing-linux-amd64-.tar.gz"],
              EligibleRelease demoReleaseNames false e →
                0 ≤ (CompareVersions r.Tag e.Tag).toInt)
      ∧ SelectLatestRelease insertionSort CompareVersions demoReleaseNames
            [demoRelease "v1.1.0" false "syncthing-linux-amd64-v1.1.0.tar.gz",
             demoRelease "" false "syncthing-linux-amd64-.tar.gz"] "v1.0.0" false
          = (demoRelease "v1.1.0" false "syncthing-linux-amd64-v1.1.0.tar.gz", none) :=
  ⟨⟨insertionSort_contract, compareVersions_preorder⟩,
    select_highest_eligible insertionSort CompareVersions demoReleaseNames
      [demoRelease "v1.2.0" false "syncthing-linux-amd64-v1.2.0.tar.gz",
       demoRelease "v1.3.0" false "syncthing-windows-amd64-v1.3.0.zip",
       demoRelease "v1.1.0" false "syncthing-linux-amd64-v1.1.0.tar.gz"] "v1.0.0" false
      insertionSort_contract compareVersions_preorder (by decide)
      (fun _ _ _ _ =>
        ⟨demoRelease "v1.2.0" false "syncthing-linux-amd64-v1.2.0.tar.gz", by decide,
          (eligible_iff _ _ _).mp (by decide), by decide⟩)
      ⟨demoRelease "v1.2.0" false "syncthing-linux-amd64-v1.2.0.tar.gz", by decide,
        (eligible_iff _ _ _).mp (by decide)⟩,
    by decide,
    select_highest_eligible insertionSort CompareVersions demoReleaseNames
      [demoRelease "v1.1.0" false "syncthing-linux-amd64-v1.1.0.tar.gz",
       demoRelease "" false "syncthing-linux-amd64-.tar.gz"] "v1.0.0" false
      insertionSort_contract compareVersions_preorder (by decide)
      (fun _ _ _ _ =>
        ⟨demoRelease "v1.1.0" false "syncthing-linux-amd64-v1.1.0.tar.gz", by decide,
          (eligible_iff _ _ _).mp (by decide), by decide⟩)
      ⟨demoRelease "v1.1.0" false "syncthing-linux-amd64-v1.1.0.tar.gz", by decide,
        (eligible_iff _ _ _).mp (by decide)⟩,
    by decide⟩

/-- C6, the claim as stated fails: given `v2.0.0` then `v1.0.0`, the walk
visits `v1.0.0` first and `v2.0.0` second, and `v1.0.0` compares `MajorOlder`
to `v2.0.0`. -/
theorem walk_not_descending :
    SortContract insertionSort ∧ IsTotalPreorder CompareVersions
      ∧ visitedReleases insertionSort CompareVersions demoReleaseNames
          [demoRelease "v2.0.0" false "syncthing-linux-amd64-v2.0.0.tar.gz",
           demoRelease "v1.0.0" false "syncthing-linux-amd64-v1.0.0.tar.gz"] "v1.0.0" false
        = [demoRelease "v1.0.0" false "syncthing-linux-amd64-v1.0.0.tar.gz",
           demoRelease "v2.0.0" false "syncthing-linux-amd64-v2.0.0.tar.gz"]
      ∧ CompareVersions "v1.0.0" "v2.0.0" = Relation.MajorOlder
      ∧ ¬ (visitedReleases insertionSort CompareVersions demoReleaseNames
          [demoRelease "v2.0.0" false "syncthing-linux-amd64-v2.0.0.tar.gz",
           demoRelease "v1.0.0" false "syncthing-linux-amd64-v1.0.0.tar.gz"] "v1.0.0"
            false).Pairwise
          (fun a b => 0 ≤ (CompareVersions a.Tag b.Tag).toInt) :=
  ⟨insertionSort_contract, compareVersions_preorder, by decide, by decide, by decide⟩

/-- C6, an instance: the walk over `v2.0.0`, `v1.0.0`, `v1.1.0` is in ascending
order. -/
theorem walk_ascending_witness :
    (SortContract insertionSort ∧ IsTotalPreorder CompareVersions)
      ∧ (visitedReleases insertionSort CompareVersions demoReleaseNames
          [demoRelease "v2.0.0" false "syncthing-linux-amd64-v2.0.0.tar.gz",
           demoRelease "v1.0.0" false "syncthing-linux-amd64-v1.0.0.tar.gz",
           demoRelease "v1.1.0" false "syncthing-linux-amd64-v1.1.0.tar.gz"] "v0.9.0"
            false).Pairwise
          (fun a b => (CompareVersions a.Tag b.Tag).toInt ≤ 0) :=
  ⟨⟨insertionSort_contract, compareVersions_preorder⟩,
    walk_ascending insertionSort CompareVersions demoReleaseNames
      [demoRelease "v2.0.0" false "syncthing-linux-amd64-v2.0.0.tar.gz",
       demoRelease "v1.0.0" false "syncthing-linux-amd64-v1.0.0.tar.gz",
       demoRelease "v1.1.0" false "syncthing-linux-amd64-v1.1.0.tar.gz"] "v0.9.0" false
      insertionSort_contract compareVersions_preorder⟩

/-- C7, the two instances of the claim: `v2.0.0` alone with `current` at
`v1.0.0` is returned, and so is the pre-release `v1.1.0-rc1` alone when
pre-releases are allowed. -/
theorem select_single_witness :
    SortContract insertionSort
      ∧ CompareVersions "v2.0.0" "v1.0.0" = Relation.MajorNewer
      ∧ SelectLatestRelease insertionSort CompareVersions demoReleaseNames
          [demoRelease "v2.0.0" false "syncthing-linux-amd64-v2.0.0.tar.gz"] "v1.0.0" false
        = (demoRelease "v2.0.0" false "syncthing-linux-amd64-v2.0.0.tar.gz", none)
      ∧ SelectLatestRelease insertionSort CompareVersions demoReleaseNames
          [demoRelease "v1.1.0-rc1" true "syncthing-linux-amd64-v1.1.0-rc1.tar.gz"]
          "v1.0.0" true
        = (demoRelease "v1.1.0-rc1" true "syncthing-linux-amd64-v1.1.0-rc1.tar.gz", none) :=
  ⟨insertionSort_contract, by decide,
    select_single insertionSort CompareVersions demoReleaseNames
      (demoRelease "v2.0.0" false "syncthing-linux-amd64-v2.0.0.tar.gz") "v1.0.0" false
      insertionSort_contract (by decide) (by decide) (by decide),
    select_single insertionSort CompareVersions demoReleaseNames
      (demoRelease "v1.1.0-rc1" true "syncthing-linux-amd64-v1.1.0-rc1.tar.gz") "v1.0.0" true
      insertionSort_contract (by decide) (by decide) (by decide)⟩

/-- C8, instances in both directions, pre-releases not allowed: the pre-release
`v1.1.0-rc1` with a matching asset and `v1.0.1` with an asset for another
platform give `ErrNoReleaseDownload`; with an asset for this platform on
`v1.0.1` the call succeeds. -/
theorem select_fails_iff_none_eligible_witness :
    SortContract insertionSort
      ∧ (¬ ∃ r ∈ [demoRelease "v1.1.0-rc1" true "syncthing-linux-amd64-v1.1.0-rc1.tar.gz",
                  demoRelease "v1.0.1" false "syncthing-windows-amd64-v1.0.1.zip"],
          (∃ asset ∈ r.Assets, ∃ expRel ∈ demoReleaseNames r.Tag, ∃ rest : String,
              pathBase asset.Name = expRel ++ rest)
            ∧ (r.Prerelease = false ∨ false = true))
      ∧ (SelectLatestRelease insertionSort CompareVersions demoReleaseNames
          [demoRelease "v1.1.0-rc1" true "syncthing-linux-amd64-v1.1.0-rc1.tar.gz",
           demoRelease "v1.0.1" false "syncthing-windows-amd64-v1.0.1.zip"] "v1.0.0" false).2
        = some Error.ErrNoReleaseDownload
      ∧ (∃ r ∈ [demoRelease "v1.1.0-rc1" true "syncthing-linux-amd64-v1.1.0-rc1.tar.gz",
                demoRelease "v1.0.1" false "syncthing-linux-amd64-v1.0.1.tar.gz"],
          (∃ asset ∈ r.Assets, ∃ expRel ∈ demoReleaseNames r.Tag, ∃ rest : String,
              pathBase asset.Name = expRel ++ rest)
            ∧ (r.Prerelease = false ∨ false = true))
      ∧ (SelectLatestRelease insertionSort CompareVersions demoReleaseNames
          [demoRelease "v1.1.0-rc1" true "syncthing-linux-amd64-v1.1.0-rc1.tar.gz",
           demoRelease "v1.0.1" false "syncthing-linux-amd64-v1.0.1.tar.gz"] "v1.0.0" false).2
        = none
      ∧ SelectLatestRelease insertionSort CompareVersions demoReleaseNames
          [demoRelease "v1.1.0-rc1" true "syncthing-linux-amd64-v1.1.0-rc1.tar.gz",
           demoRelease "v1.0.1" false "syncthing-linux-amd64-v1.0.1.tar.gz"] "v1.0.0" false
        = (demoRelease "v1.0.1" false "syncthing-linux-amd64-v1.0.1.tar.gz", none) :=
  have hneg : ¬ ∃ r ∈ [demoRelease "v1.1.0-rc1" true "syncthing-linux-amd64-v1.1.0-rc1.tar.gz",
                  demoRelease "v1.0.1" false "syncthing-windows-amd64-v1.0.1.zip"],
          (∃ asset ∈ r.Assets, ∃ expRel ∈ demoReleaseNames r.Tag, ∃ rest : String,
              pathBase asset.Name = expRel ++ rest)
            ∧ (r.Prerelease = false ∨ false = true) :=
    fun ⟨r, hr, hsel⟩ =>
      (by decide : ¬ ∃ r ∈ [demoRelease "v1.1.0-rc1" true
                    "syncthing-linux-amd64-v1.1.0-rc1.tar.gz",
                  demoRelease "v1.0.1" false "syncthing-windows-amd64-v1.0.1.zip"],
          Candidate demoReleaseNames false r)
        ⟨r, hr, (candidate_iff demoReleaseNames false r).mpr hsel⟩
  have hpos : ∃ r ∈ [demoRelease "v1.1.0-rc1" true "syncthing-linux-amd64-v1.1.0-rc1.tar.gz",
                demoRelease "v1.0.1" false "syncthing-linux-amd64-v1.0.1.tar.gz"],
          (∃ asset ∈ r.Assets, ∃ expRel ∈ demoReleaseNames r.Tag, ∃ rest : String,
              pathBase asset.Name = expRel ++ rest)
            ∧ (r.Prerelease = false ∨ false = true) :=
    ⟨demoRelease "v1.0.1" false "syncthing-linux-amd64-v1.0.1.tar.gz", by decide,
      (candidate_iff demoReleaseNames false _).mp (by decide)⟩
  ⟨insertionSort_contract, hneg,
    (select_fails_iff_none_eligible insertionSort CompareVersions demoReleaseNames
      [demoRelease "v1.1.0-rc1" true "syncthing-linux-amd64-v1.1.0-rc1.tar.gz",
       demoRelease "v1.0.1" false "syncthing-windows-amd64-v1.0.1.zip"] "v1.0.0" false
      insertionSort_contract (by decide) (by decide)).1.mpr hneg,
    hpos,
    (select_fails_iff_none_eligible insertionSort CompareVersions demoReleaseNames
      [demoRelease "v1.1.0-rc1" true "syncthing-linux-amd64-v1.1.0-rc1.tar.gz",
       demoRelease "v1.0.1" false "syncthing-linux-amd64-v1.0.1.tar.gz"] "v1.0.0" false
      insertionSort_contract (by decide) (by decide)).2.mpr hpos,
    by decide⟩

/-! ### The installer -/

theorem binary_ne_old (binary : String) : binary ≠ binary ++ ".old" := by
  intro h
  have h2 := congrArg String.length h
  rw [String.length_append] at h2
  have h3 : ".old".length = 4 := by decide
  omega

/-- A successful rename found a file at the old path and moved it. -/
theorem osRename_ok (fault : Option Error) (a b : String) (fs fs2 : FS)
    (h : osRename fault a b fs = (none, fs2)) :
    ∃ c, fs a = some c
      ∧ fs2 = fun p => if p = b then some c else if p = a then none else fs p := by
  unfold osRename at h
  cases fault with
  | some e => simp at h
  | none =>
    cases hc : fs a with
    | none => simp [hc] at h
    | some c =>
      simp only [hc, Prod.mk.injEq, true_and] at h
      exact ⟨c, rfl, h.symm⟩

/-- A failed rename changes nothing. -/
theorem osRename_err (fault : Option Error) (a b : String) (fs fs2 : FS) (e : Error)
    (h : osRename fault a b fs = (some e, fs2)) : fs2 = fs := by
  unfold osRename at h
  cases fault with
  | some e2 =>
    simp only [Prod.mk.injEq] at h
    exact h.2.symm
  | none =>
    cases hc : fs a with
    | none =>
      simp only [hc, Prod.mk.injEq] at h
      exact h.2.symm
    | some c => simp [hc] at h

/-- A rename without an imposed failure of a file that exists succeeds. -/
theorem osRename_none (a b : String) (fs : FS) (c : Content) (h : fs a = some c) :
    osRename none a b fs
      = (none, fun p => if p = b then some c else if p = a then none else fs p) := by
  simp [osRename, h]

/-- A remove leaves every other path as it was. -/
theorem osRemove_other (fault : Option Error) (name p : String) (fs : FS) (h : p ≠ name) :
    (osRemove fault name fs).2 p = fs p := by
  unfold osRemove
  cases fault with
  | some e => rfl
  | none =>
    cases hc : fs name with
    | none => rfl
    | some c => simp [h]

section InstallerClaims

variable (extract : String → String → String → String × Option Error)
variable (filepathDir : String → String)

/-- C9: the collaborator returned the path `fname`, distinct from `binary`;
the rename of `binary` to `binary + ".old"` succeeded, the rename of `fname`
onto `binary` failed with `e`, and the rename back did not fail.  Then
`upgradeToURL` returns `e` and the file at `binary` has the content it had
before the call.  (That `fname` differs from `binary + ".old"` is not
needed.) -/
theorem rollback_restores (ft : Faults) (archiveName binary url fname : String)
    (fs fs1 fs2 fs3 fs4 : FS) (r0 : Option Error) (e : Error)
    (hread : extract archiveName (filepathDir binary) url = (fname, none))
    (hne : fname ≠ binary)
    (hrm : osRemove ft.removeOld (binary ++ ".old") fs = (r0, fs1))
    (h1 : osRename ft.renameOld binary (binary ++ ".old") fs1 = (none, fs2))
    (h2 : osRename ft.renameNew fname binary fs2 = (some e, fs3))
    (h3 : osRename ft.rollback (binary ++ ".old") binary fs3 = (none, fs4)) :
    (upgradeToURL extract filepathDir ft archiveName binary url fs).1 = some e
      ∧ (upgradeToURL extract filepathDir ft archiveName binary url fs).2 binary
          = fs binary := by
  have hfs1 : fs1 = (osRemove ft.removeOld (binary ++ ".old") fs).2 := by rw [hrm]
  have hb1 : fs1 binary = fs binary := by
    rw [hfs1]
    exact osRemove_other _ _ _ _ (binary_ne_old binary)
  obtain ⟨c, hc, hfs2⟩ := osRename_ok _ _ _ _ _ h1
  have hfs3 : fs3 = fs2 := osRename_err _ _ _ _ _ _ h2
  obtain ⟨c2, hc2, hfs4⟩ := osRename_ok _ _ _ _ _ h3
  have hc3 : c2 = c := by
    rw [hfs3, hfs2] at hc2
    simpa using hc2.symm
  have hres : upgradeToURL extract filepathDir ft archiveName binary url fs
      = (some e, (osRemove ft.removeTmp fname fs4).2) := by
    unfold upgradeToURL
    rw [hread]
    simp only [← hfs1, h1, h2, h3]
  rw [hres]
  refine ⟨rfl, ?_⟩
  rw [osRemove_other _ _ _ _ (Ne.symm hne), hfs4]
  simp [hc3, ← hc, hb1]

/-- C10 (amended): a file exists at `binary`, the collaborator does not hand
back `binary` itself as the extracted path, and no failure is imposed on the
rename back.  Then, whatever the other failures, after `upgradeToURL` the file
at `binary` exists and holds either its original content or, the call having
succeeded, the content of the extracted file. -/
theorem binary_survives (ft : Faults) (archiveName binary url : String) (fs : FS)
    (c : Content) (hbin : fs binary = some c)
    (hfn : ∀ fname, extract archiveName (filepathDir binary) url = (fname, none) →
      fname ≠ binary)
    (hroll : ft.rollback = none) :
    (upgradeToURL extract filepathDir ft archiveName binary url fs).2 binary = some c
      ∨ ((upgradeToURL extract filepathDir ft archiveName binary url fs).1 = none
          ∧ ∃ fname n, extract archiveName (filepathDir binary) url = (fname, none)
              ∧ fs fname = some n
              ∧ (upgradeToURL extract filepathDir ft archiveName binary url fs).2 binary
                  = some n) := by
  cases hx : extract archiveName (filepathDir binary) url with
  | mk fname err =>
  cases err with
  | some err =>
    left
    unfold upgradeToURL
    rw [hx]
    exact hbin
  | none =>
    have hne : fname ≠ binary := hfn fname hx
    have hb1 : (osRemove ft.removeOld (binary ++ ".old") fs).2 binary = some c := by
      rw [osRemove_other _ _ _ _ (binary_ne_old binary)]
      exact hbin
    cases h1 : osRename ft.renameOld binary (binary ++ ".old")
        (osRemove ft.removeOld (binary ++ ".old") fs).2 with
    | mk r1 fs2 =>
    cases r1 with
    | some e1 =>
      left
      have hfs2 := osRename_err _ _ _ _ _ _ h1
      have hres : upgradeToURL extract filepathDir ft archiveName binary url fs
          = (some e1, (osRemove ft.removeTmp fname fs2).2) := by
        unfold upgradeToURL
        rw [hx]
        simp only [h1]
      rw [hres, osRemove_other _ _ _ _ (Ne.symm hne), hfs2]
      exact hb1
    | none =>
      obtain ⟨c1, hc1, hfs2⟩ := osRename_ok _ _ _ _ _ h1
      have hcc : c1 = c := by
        rw [hb1] at hc1
        exact (Option.some.inj hc1).symm
      subst hcc
      cases h2 : osRename ft.renameNew fname binary fs2 with
      | mk r2 fs3 =>
      cases r2 with
      | some e2 =>
        left
        have hfs3 := osRename_err _ _ _ _ _ _ h2
        have hold : fs3 (binary ++ ".old") = some c1 := by
          rw [hfs3, hfs2]
          simp
        have h3 := osRename_none (binary ++ ".old") binary fs3 c1 hold
        have hres : upgradeToURL extract filepathDir ft archiveName binary url fs
            = (some e2, (osRemove ft.removeTmp fname
                (osRename ft.rollback (binary ++ ".old") binary fs3).2).2) := by
          unfold upgradeToURL
          rw [hx]
          simp only [h1, h2]
        rw [hres, osRemove_other _ _ _ _ (Ne.symm hne), hroll, h3]
        simp
      | none =>
        obtain ⟨n, hn, hfs3⟩ := osRename_ok _ _ _ _ _ h2
        have hres : upgradeToURL extract filepathDir ft archiveName binary url fs
            = (none, (osRemove ft.removeTmp fname fs3).2) := by
          unfold upgradeToURL
          rw [hx]
          simp only [h1, h2]
        have hbn : (osRemove ft.removeTmp fname fs3).2 binary = some n := by
          rw [osRemove_other _ _ _ _ (Ne.symm hne), hfs3]
          simp
        rw [hres]
        by_cases hfo : fname = binary ++ ".old"
        · left
          rw [hbn, ← hn, hfs2, hfo]
          simp
        · right
          refine ⟨rfl, fname, n, rfl, ?_, hbn⟩
          rw [← hn, hfs2]
          simp only [hfo, hne, if_false]
          exact (osRemove_other _ _ _ _ hfo).symm

end InstallerClaims

/-! ### The installer on a concrete file system -/

/-- C9, an instance: the rename of the extracted file onto the binary fails
with "invalid cross-device link"; that error is returned and the binary holds
its original content. -/
theorem rollback_restores_witness :
    (upgradeToURL (demoExtract "/opt/syncthing/syncthing.tmp") demoDir demoRenameNewFails
        "syncthing-linux-amd64-v1.1.0.tar.gz" "/opt/syncthing/syncthing"
        "https://example.org/syncthing-linux-amd64-v1.1.0.tar.gz" demoFS).1
        = some (Error.other "invalid cross-device link")
      ∧ (upgradeToURL (demoExtract "/opt/syncthing/syncthing.tmp") demoDir demoRenameNewFails
          "syncthing-linux-amd64-v1.1.0.tar.gz" "/opt/syncthing/syncthing"
          "https://example.org/syncthing-linux-amd64-v1.1.0.tar.gz" demoFS).2
            "/opt/syncthing/syncthing"
          = demoFS "/opt/syncthing/syncthing" :=
  rollback_restores (demoExtract "/opt/syncthing/syncthing.tmp") demoDir demoRenameNewFails
    "syncthing-linux-amd64-v1.1.0.tar.gz" "/opt/syncthing/syncthing"
    "https://example.org/syncthing-linux-amd64-v1.1.0.tar.gz" "/opt/syncthing/syncthing.tmp"
    demoFS _ _ _ _ _ _ rfl (by decide) rfl rfl rfl rfl

/-- C10, the claim as stated fails.  First run: the rename of the extracted
file onto the binary fails and the rename back fails too; the binary is left
missing, its content sitting at `binary + ".old"`.  Second run: no failure is
imposed but the collaborator hands back the path of the binary itself; the
deferred remove deletes the binary. -/
theorem binary_can_go_missing :
    demoFS "/opt/syncthing/syncthing" = some [1, 2, 3]
      ∧ (upgradeToURL (demoExtract "/opt/syncthing/syncthing.tmp") demoDir demoRollbackFails
          "syncthing-linux-amd64-v1.1.0.tar.gz" "/opt/syncthing/syncthing"
          "https://example.org/syncthing-linux-amd64-v1.1.0.tar.gz" demoFS).2
            "/opt/syncthing/syncthing" = none
      ∧ (upgradeToURL (demoExtract "/opt/syncthing/syncthing.tmp") demoDir demoRollbackFails
          "syncthing-linux-amd64-v1.1.0.tar.gz" "/opt/syncthing/syncthing"
          "https://example.org/syncthing-linux-amd64-v1.1.0.tar.gz" demoFS).2
            "/opt/syncthing/syncthing.old" = some [1, 2, 3]
      ∧ (upgradeToURL (demoExtract "/opt/syncthing/syncthing") demoDir demoNoFaults
          "syncthing-linux-amd64-v1.1.0.tar.gz" "/opt/syncthing/syncthing"
          "https://example.org/syncthing-linux-amd64-v1.1.0.tar.gz" demoFS).2
            "/opt/syncthing/syncthing" = none := by
  decide

/-- C10, an instance: with the rename of the extracted file failing and the
rename back going through, the binary holds its original content. -/
theorem binary_survives_witness :
    demoFS "/opt/syncthing/syncthing" = some [1, 2, 3]
      ∧ ((upgradeToURL (demoExtract "/opt/syncthing/syncthing.tmp") demoDir
            demoRenameNewFails "syncthing-linux-amd64-v1.1.0.tar.gz"
            "/opt/syncthing/syncthing"
            "https://example.org/syncthing-linux-amd64-v1.1.0.tar.gz" demoFS).2
              "/opt/syncthing/syncthing" = some [1, 2, 3]
        ∨ ((upgradeToURL (demoExtract "/opt/syncthing/syncthing.tmp") demoDir
            demoRenameNewFails "syncthing-linux-amd64-v1.1.0.tar.gz"
            "/opt/syncthing/syncthing"
            "https://example.org/syncthing-linux-amd64-v1.1.0.tar.gz" demoFS).1 = none
          ∧ ∃ fname n, demoExtract "/opt/syncthing/syncthing.tmp"
                "syncthing-linux-amd64-v1.1.0.tar.gz" (demoDir "/opt/syncthing/syncthing")
                "https://example.org/syncthing-linux-amd64-v1.1.0.tar.gz" = (fname, none)
              ∧ demoFS fname = some n
              ∧ (upgradeToURL (demoExtract "/opt/syncthing/syncthing.tmp") demoDir
                  demoRenameNewFails "syncthing-linux-amd64-v1.1.0.tar.gz"
                  "/opt/syncthing/syncthing"
                  "https://example.org/syncthing-linux-amd64-v1.1.0.tar.gz" demoFS).2
                    "/opt/syncthing/syncthing" = some n)) :=
  ⟨by decide,
    binary_survives (demoExtract "/opt/syncthing/syncthing.tmp") demoDir demoRenameNewFails
      "syncthing-linux-amd64-v1.1.0.tar.gz" "/opt/syncthing/syncthing"
      "https://example.org/syncthing-linux-amd64-v1.1.0.tar.gz" demoFS [1, 2, 3]
      (by decide)
      (fun fname h => by
        have h2 : fname = "/opt/syncthing/syncthing.tmp" := (congrArg Prod.fst h).symm
        rw [h2]
        decide)
      rfl⟩

/-! ### The swap of `upgradeToURL` -/

/-- A remove on which no failure is imposed leaves no file at the path. -/
theorem osRemove_self (name : String) (fs : FS) : (osRemove none name fs).2 name = none := by
  unfold osRemove
  cases hc : fs name with
  | none => simpa using hc
  | some c => simp

/-- A remove never creates a file: a path without a file stays without one. -/
theorem osRemove_absent (fault : Option Error) (name p : String) (fs : FS)
    (h : fs p = none) : (osRemove fault name fs).2 p = none := by
  unfold osRemove
  cases fault with
  | some e => exact h
  | none =>
    cases hc : fs name with
    | none => exact h
    | some c =>
      by_cases hp : p = name
      · simp [hp]
      · simp [hp, h]

section SwapLemmas

variable (extract : String → String → String → String × Option Error)
variable (filepathDir : String → String)

/-- Once the collaborator has handed back a path, the state `upgradeToURL`
returns is the one left by the deferred remove of that path. -/
theorem upgradeToURL_deferred (ft : Faults) (archiveName binary url fname : String)
    (fs : FS) (hread : extract archiveName (filepathDir binary) url = (fname, none)) :
    ∃ fsx, (upgradeToURL extract filepathDir ft archiveName binary url fs).2
      = (osRemove ft.removeTmp fname fsx).2 := by
  unfold upgradeToURL
  rw [hread]
  simp only
  cases h1 : osRename ft.renameOld binary (binary ++ ".old")
      (osRemove ft.removeOld (binary ++ ".old") fs).2 with
  | mk r1 fs2 =>
  cases r1 with
  | some e1 => exact ⟨fs2, rfl⟩
  | none =>
    simp only
    cases h2 : osRename ft.renameNew fname binary fs2 with
    | mk r2 fs3 =>
    cases r2 with
    | some e2 => exact ⟨_, rfl⟩
    | none => exact ⟨fs3, rfl⟩

/-- What a call of `upgradeToURL` that returns no error has done: the
collaborator handed back a path other than `binary`, a file was at `binary`,
the new content is at `binary`, nothing is left at the extracted path, and,
when that path is not `binary + ".old"`, the new content is the one the
extracted file had and the old content is at `binary + ".old"`. -/
theorem upgradeToURL_ok (ft : Faults) (archiveName binary url : String) (fs : FS)
    (hok : (upgradeToURL extract filepathDir ft archiveName binary url fs).1 = none) :
    ∃ fname n c0, extract archiveName (filepathDir binary) url = (fname, none)
      ∧ fname ≠ binary ∧ fs binary = some c0
      ∧ (upgradeToURL extract filepathDir ft archiveName binary url fs).2 binary = some n
      ∧ (upgradeToURL extract filepathDir ft archiveName binary url fs).2 fname = none
      ∧ (fname ≠ binary ++ ".old" → fs fname = some n
          ∧ (upgradeToURL extract filepathDir ft archiveName binary url fs).2
              (binary ++ ".old") = some c0) := by
  cases hx : extract archiveName (filepathDir binary) url with
  | mk fname err =>
  cases err with
  | some err =>
    unfold upgradeToURL at hok
    rw [hx] at hok
    cases hok
  | none =>
    cases h1 : osRename ft.renameOld binary (binary ++ ".old")
        (osRemove ft.removeOld (binary ++ ".old") fs).2 with
    | mk r1 fs2 =>
    cases r1 with
    | some e1 =>
      unfold upgradeToURL at hok
      rw [hx] at hok
      simp only [h1] at hok
      cases hok
    | none =>
      obtain ⟨c0, hc0, hfs2⟩ := osRename_ok _ _ _ _ _ h1
      rw [osRemove_other _ _ _ _ (binary_ne_old binary)] at hc0
      cases h2 : osRename ft.renameNew fname binary fs2 with
      | mk r2 fs3 =>
      cases r2 with
      | some e2 =>
        unfold upgradeToURL at hok
        rw [hx] at hok
        simp only [h1, h2] at hok
        cases hok
      | none =>
        obtain ⟨n, hn, hfs3⟩ := osRename_ok _ _ _ _ _ h2
        have hres : upgradeToURL extract filepathDir ft archiveName binary url fs
            = (none, (osRemove ft.removeTmp fname fs3).2) := by
          unfold upgradeToURL
          rw [hx]
          simp only [h1, h2]
        have hne : fname ≠ binary := by
          intro hfb
          rw [hfs2, hfb] at hn
          simp [(binary_ne_old binary)] at hn
        rw [hres]
        refine ⟨fname, n, c0, rfl, hne, hc0, ?_, ?_, ?_⟩
        · rw [osRemove_other _ _ _ _ (Ne.symm hne), hfs3]
          simp
        · apply osRemove_absent
          rw [hfs3]
          simp [hne]
        · intro hfo
          constructor
          · rw [← hn, hfs2]
            simp only [hfo, hne, if_false]
            exact (osRemove_other _ _ _ _ hfo).symm
          · rw [osRemove_other _ _ _ _ (Ne.symm hfo), hfs3, hfs2]
            simp [(binary_ne_old binary).symm, Ne.symm hfo]

end SwapLemmas

/-! ### The asset scan of `upgradeTo` -/

section ScanLemmas

variable (extract : String → String → String → String × Option Error)
variable (filepathDir : String → String)
variable (names : String → List String)

theorem hasMatchingAsset_eq (rel : Release) :
    hasMatchingAsset names rel = rel.Assets.any (assetMatches names rel) := rfl

/-- The first element of a list that passes a test is the one `find?` gives. -/
theorem find_first {α : Type} (p : α → Bool) (front back : List α) (a : α)
    (hfront : ∀ x ∈ front, p x = false) (ha : p a = true) :
    (front ++ a :: back).find? p = some a := by
  induction front with
  | nil => simp [ha]
  | cons x xs ih =>
    rw [List.cons_append, List.find?_cons, hfront x (List.mem_cons_self _ _)]
    exact ih (fun y hy => hfront y (List.mem_cons_of_mem _ hy))

/-- The scan of `upgradeTo` hands the asset `find?` gives to `upgradeToURL`. -/
theorem upgradeTo_found (ft : Faults) (binary : String) (rel : Release) (fs : FS)
    (a : Asset) (h : rel.Assets.find? (assetMatches names rel) = some a) :
    upgradeTo extract filepathDir names ft binary rel fs
      = upgradeToURL extract filepathDir ft (pathBase a.Name) binary a.URL fs := by
  unfold upgradeTo
  unfold assetMatches at h
  rw [h]

/-- Without a matching asset the scan of `upgradeTo` ends with
`ErrNoReleaseDownload` and the file system as it was. -/
theorem upgradeTo_unmatched (ft : Faults) (binary : String) (rel : Release) (fs : FS)
    (h : hasMatchingAsset names rel = false) :
    upgradeTo extract filepathDir names ft binary rel fs
      = (some Error.ErrNoReleaseDownload, fs) := by
  have hnone : rel.Assets.find? (assetMatches names rel) = none := by
    rw [List.find?_eq_none]
    intro x hx hpx
    rw [hasMatchingAsset_eq, List.any_eq_false] at h
    exact h x hx hpx
  unfold upgradeTo
  unfold assetMatches at hnone
  rw [hnone]

/-- With a matching asset the scan of `upgradeTo` reaches `upgradeToURL` on an
asset of the release that passes the test. -/
theorem upgradeTo_matched (ft : Faults) (binary : String) (rel : Release) (fs : FS)
    (h : hasMatchingAsset names rel = true) :
    ∃ a ∈ rel.Assets, assetMatches names rel a = true
      ∧ upgradeTo extract filepathDir names ft binary rel fs
          = upgradeToURL extract filepathDir ft (pathBase a.Name) binary a.URL fs := by
  cases hf : rel.Assets.find? (assetMatches names rel) with
  | none =>
    rw [List.find?_eq_none] at hf
    rw [hasMatchingAsset_eq, List.any_eq_true] at h
    obtain ⟨x, hx, hpx⟩ := h
    exact absurd hpx (hf x hx)
  | some a =>
    exact ⟨a, List.mem_of_find?_eq_some hf, List.find?_some hf,
      upgradeTo_found extract filepathDir names ft binary rel fs a hf⟩

/-- The result of `upgradeToURL` depends on the collaborator only through its
answer to `(archiveName, filepath.Dir(binary), url)`. -/
theorem upgradeToURL_congr
    (extract2 : String → String → String → String × Option Error)
    (ft : Faults) (archiveName binary url : String) (fs : FS)
    (h : extract2 archiveName (filepathDir binary) url
      = extract archiveName (filepathDir binary) url) :
    upgradeToURL extract2 filepathDir ft archiveName binary url fs
      = upgradeToURL extract filepathDir ft archiveName binary url fs := by
  unfold upgradeToURL
  rw [h]

end ScanLemmas

/-! ### More on the loop of the selector -/

section MoreLoopLemmas

variable (sortSort : (Release → Release → Bool) → List Release → List Release)
variable (cmp : String → String → Relation) (names : String → List String)

/-- A release the loop returns without error is the accumulator it started with
or a candidate of the list. -/
theorem selectLoop_mem (current : String) (pre : Bool) (l : List Release)
    (sel r : Release) (h : selectLoop cmp names current pre l sel = (r, none)) :
    r = sel ∨ (r ∈ l ∧ Candidate names pre r) := by
  induction l generalizing sel with
  | nil =>
    rw [selectLoop_nil] at h
    by_cases ht : sel.Tag = ""
    · rw [selectFinish_of_empty sel ht] at h
      cases h
    · rw [selectFinish_of_tag sel ht] at h
      left
      exact (congrArg Prod.fst h).symm
  | cons rel rest ih =>
    by_cases hret : cmp rel.Tag current = Relation.MajorNewer ∧ sel.Tag ≠ ""
        ∧ cmp sel.Tag current = Relation.Newer
    · rw [selectLoop_cons_return cmp names current pre rel sel rest hret] at h
      left
      exact (congrArg Prod.fst h).symm
    · by_cases hc : Candidate names pre rel
      · rw [selectLoop_cons_take cmp names current pre rel sel rest hret hc] at h
        right
        rcases ih rel h with heq | ⟨hmem, hcr⟩
        · rw [heq]
          exact ⟨List.mem_cons_self _ _, hc⟩
        · exact ⟨List.mem_cons_of_mem _ hmem, hcr⟩
      · rw [selectLoop_cons_skip cmp names current pre rel sel rest hret hc] at h
        rcases ih sel h with heq | ⟨hmem, hcr⟩
        · left; exact heq
        · right; exact ⟨List.mem_cons_of_mem _ hmem, hcr⟩

/-- On a list without a release `MajorNewer` than either of two versions, the
loop gives the same result for both. -/
theorem selectLoop_current (c1 c2 : String) (pre : Bool) (l : List Release)
    (sel : Release)
    (h1 : ∀ x ∈ l, cmp x.Tag c1 ≠ Relation.MajorNewer)
    (h2 : ∀ x ∈ l, cmp x.Tag c2 ≠ Relation.MajorNewer) :
    selectLoop cmp names c1 pre l sel = selectLoop cmp names c2 pre l sel := by
  induction l generalizing sel with
  | nil => rw [selectLoop_nil, selectLoop_nil]
  | cons rel rest ih =>
    have hr1 : ¬ (cmp rel.Tag c1 = Relation.MajorNewer ∧ sel.Tag ≠ ""
        ∧ cmp sel.Tag c1 = Relation.Newer) :=
      fun h => h1 rel (List.mem_cons_self _ _) h.1
    have hr2 : ¬ (cmp rel.Tag c2 = Relation.MajorNewer ∧ sel.Tag ≠ ""
        ∧ cmp sel.Tag c2 = Relation.Newer) :=
      fun h => h2 rel (List.mem_cons_self _ _) h.1
    have h1r : ∀ x ∈ rest, cmp x.Tag c1 ≠ Relation.MajorNewer :=
      fun x hx => h1 x (List.mem_cons_of_mem _ hx)
    have h2r : ∀ x ∈ rest, cmp x.Tag c2 ≠ Relation.MajorNewer :=
      fun x hx => h2 x (List.mem_cons_of_mem _ hx)
    by_cases hc : Candidate names pre rel
    · rw [selectLoop_cons_take cmp names c1 pre rel sel rest hr1 hc,
        selectLoop_cons_take cmp names c2 pre rel sel rest hr2 hc]
      exact ih rel h1r h2r
    · rw [selectLoop_cons_skip cmp names c1 pre rel sel rest hr1 hc,
        selectLoop_cons_skip cmp names c2 pre rel sel rest hr2 hc]
      exact ih sel h1r h2r

/-- A list of one eligible release gives that release. -/
theorem select_singleton (hs : SortContract sortSort) (r : Release) (current : String)
    (pre : Bool) (he : Eligible names pre r) :
    SelectLatestRelease sortSort cmp names [r] current pre = (r, none) := by
  rw [select_eq_loop sortSort cmp names [r] current pre (by simp)]
  rw [List.perm_singleton.mp (hs.perm _ [r])]
  have hret : ¬ (cmp r.Tag current = Relation.MajorNewer ∧ Release.zero.Tag ≠ ""
      ∧ cmp Release.zero.Tag current = Relation.Newer) := fun h => h.2.1 rfl
  rw [selectLoop_cons_take cmp names current pre r Release.zero [] hret he.2,
    selectLoop_nil, selectFinish_of_tag r he.1]

/-- A release `SelectLatestRelease` returns without error is a candidate of the
input list. -/
theorem select_mem (hs : SortContract sortSort) (rels : List Release) (current : String)
    (pre : Bool) (r : Release)
    (h : SelectLatestRelease sortSort cmp names rels current pre = (r, none)) :
    r ∈ rels ∧ Candidate names pre r := by
  by_cases hne : rels = []
  · subst hne
    simp [SelectLatestRelease] at h
  · rw [select_eq_loop sortSort cmp names rels current pre hne] at h
    rcases selectLoop_mem cmp names current pre _ _ r h with heq | ⟨hmem, hc⟩
    · exfalso
      rcases selectLoop_cases cmp names current pre
        (sortSort (sortReverse (SortByRelease.Less cmp)) rels) Release.zero with hz | hz
      · rw [h] at hz
        cases hz
      · rw [h] at hz
        exact hz.2 (by rw [heq]; rfl)
    · exact ⟨(mem_sorted sortSort hs _ rels r).mp hmem, hc⟩

end MoreLoopLemmas

/-! ### The installer, the comparator and this build -/

section MoreClaims

variable (sortSort : (Release → Release → Bool) → List Release → List Release)
variable (cmp : String → String → Relation) (names : String → List String)
variable (extract : String → String → String → String × Option Error)
variable (filepathDir : String → String)

/-- C11 (amended): the collaborator never hands back `binary + ".old"` as the
extracted path.  Then whenever `upgradeToURL`, and hence `upgradeTo`, returns
nil, the file at `binary` holds the content the extracted file had and the file
at `binary + ".old"` holds the content `binary` had before the call. -/
theorem swap_on_success (ft : Faults) (binary : String) (fs : FS)
    (hfn : ∀ a u fname, extract a (filepathDir binary) u = (fname, none) →
      fname ≠ binary ++ ".old") :
    (∀ archiveName url,
        (upgradeToURL extract filepathDir ft archiveName binary url fs).1 = none →
        ∃ fname n c0, extract archiveName (filepathDir binary) url = (fname, none)
          ∧ fs fname = some n ∧ fs binary = some c0
          ∧ (upgradeToURL extract filepathDir ft archiveName binary url fs).2 binary
              = some n
          ∧ (upgradeToURL extract filepathDir ft archiveName binary url fs).2
              (binary ++ ".old") = some c0)
      ∧ (∀ rel, (upgradeTo extract filepathDir names ft binary rel fs).1 = none →
        ∃ asset ∈ rel.Assets, ∃ fname n c0,
          extract (pathBase asset.Name) (filepathDir binary) asset.URL = (fname, none)
          ∧ fs fname = some n ∧ fs binary = some c0
          ∧ (upgradeTo extract filepathDir names ft binary rel fs).2 binary = some n
          ∧ (upgradeTo extract filepathDir names ft binary rel fs).2
              (binary ++ ".old") = some c0) := by
  have hurl : ∀ archiveName url,
      (upgradeToURL extract filepathDir ft archiveName binary url fs).1 = none →
      ∃ fname n c0, extract archiveName (filepathDir binary) url = (fname, none)
        ∧ fs fname = some n ∧ fs binary = some c0
        ∧ (upgradeToURL extract filepathDir ft archiveName binary url fs).2 binary
            = some n
        ∧ (upgradeToURL extract filepathDir ft archiveName binary url fs).2
            (binary ++ ".old") = some c0 := by
    intro archiveName url hok
    obtain ⟨fname, n, c0, hx, _, hb, hnew, _, hrest⟩ :=
      upgradeToURL_ok extract filepathDir ft archiveName binary url fs hok
    obtain ⟨hfn2, hold⟩ := hrest (hfn archiveName url fname hx)
    exact ⟨fname, n, c0, hx, hfn2, hb, hnew, hold⟩
  refine ⟨hurl, ?_⟩
  intro rel hok
  by_cases hm : hasMatchingAsset names rel = true
  · obtain ⟨a, ha, _, heq⟩ := upgradeTo_matched extract filepathDir names ft binary rel fs hm
    rw [heq] at hok ⊢
    exact ⟨a, ha, hurl (pathBase a.Name) a.URL hok⟩
  · have hm2 : hasMatchingAsset names rel = false := by simpa using hm
    rw [upgradeTo_unmatched extract filepathDir names ft binary rel fs hm2] at hok
    cases hok

/-- C12: for a release none of whose assets has a base name starting with an
expected release name, `upgradeTo` returns `ErrNoReleaseDownload` and the file
system as it was, whatever the collaborator and whatever failures the file
operations would meet: neither is used. -/
theorem upgradeTo_no_asset (ft : Faults) (binary : String) (rel : Release) (fs : FS)
    (h : hasMatchingAsset names rel = false) :
    upgradeTo extract filepathDir names ft binary rel fs
      = (some Error.ErrNoReleaseDownload, fs) :=
  upgradeTo_unmatched extract filepathDir names ft binary rel fs h

/-- C13: when the assets of the release are `front ++ a :: back`, no asset of
`front` matches and `a` matches, `upgradeTo` is
`upgradeToURL(path.Base(a.Name), binary, a.URL)`, whatever `back` holds, and its
result depends on the collaborator only through the answer to
`(path.Base(a.Name), filepath.Dir(binary), a.URL)`. -/
theorem upgradeTo_first_match (ft : Faults) (binary : String) (rel : Release) (fs : FS)
    (front back : List Asset) (a : Asset)
    (hsplit : rel.Assets = front ++ a :: back)
    (hfront : ∀ x ∈ front, assetMatches names rel x = false)
    (ha : assetMatches names rel a = true) :
    upgradeTo extract filepathDir names ft binary rel fs
        = upgradeToURL extract filepathDir ft (pathBase a.Name) binary a.URL fs
      ∧ ∀ extract2 : String → String → String → String × Option Error,
          extract2 (pathBase a.Name) (filepathDir binary) a.URL
            = extract (pathBase a.Name) (filepathDir binary) a.URL →
          upgradeTo extract2 filepathDir names ft binary rel fs
            = upgradeTo extract filepathDir names ft binary rel fs := by
  have hf : rel.Assets.find? (assetMatches names rel) = some a := by
    rw [hsplit]
    exact find_first _ front back a hfront ha
  refine ⟨upgradeTo_found extract filepathDir names ft binary rel fs a hf, ?_⟩
  intro extract2 h2
  rw [upgradeTo_found extract filepathDir names ft binary rel fs a hf,
    upgradeTo_found extract2 filepathDir names ft binary rel fs a hf]
  exact upgradeToURL_congr extract filepathDir extract2 ft _ binary _ fs h2

/-- C14 (amended): the collaborator returned the path `fname`.  When
`upgradeToURL` returns nil, or when no failure is imposed on the deferred
`os.Remove(fname)`, no file exists at `fname` when `upgradeToURL` returns. -/
theorem extracted_file_removed (ft : Faults) (archiveName binary url fname : String)
    (fs : FS) (hread : extract archiveName (filepathDir binary) url = (fname, none))
    (h : (upgradeToURL extract filepathDir ft archiveName binary url fs).1 = none
      ∨ ft.removeTmp = none) :
    (upgradeToURL extract filepathDir ft archiveName binary url fs).2 fname = none := by
  rcases h with hok | hrm
  · obtain ⟨fname2, n, c0, hx, _, _, _, hgone, _⟩ :=
      upgradeToURL_ok extract filepathDir ft archiveName binary url fs hok
    rw [hread] at hx
    have hf : fname = fname2 := congrArg Prod.fst hx
    rw [hf]
    exact hgone
  · obtain ⟨fsx, hfsx⟩ :=
      upgradeToURL_deferred extract filepathDir ft archiveName binary url fname fs hread
    rw [hfsx, hrm]
    exact osRemove_self fname fsx

/-- C15: the comparator modelled from the spec gives `Equal` on `(x, x)` for
every string `x`, so `SortByRelease.Less` is false on an element and itself;
and the same holds for every comparator in which a positive answer one way is a
negative answer the other way. -/
theorem compare_reflexive :
    (∀ x, CompareVersions x x = Relation.Equal)
      ∧ (∀ r : Release, SortByRelease.Less CompareVersions r r = false)
      ∧ (∀ c : String → String → Relation,
          (∀ a b, 0 < (c a b).toInt ↔ (c b a).toInt < 0) →
          (∀ x, c x x = Relation.Equal)
            ∧ ∀ r : Release, SortByRelease.Less c r r = false) := by
  have h1 : ∀ x, CompareVersions x x = Relation.Equal := compareVersions_refl
  refine ⟨h1, ?_, ?_⟩
  · intro r
    simp [SortByRelease.Less, h1, Relation.toInt]
  · intro c hc
    have h2 : ∀ x, c x x = Relation.Equal := by
      intro x
      have h3 := hc x x
      cases h4 : c x x <;> rw [h4] at h3 <;> simp [Relation.toInt] at h3 ⊢
    refine ⟨h2, ?_⟩
    intro r
    simp [SortByRelease.Less, h2, Relation.toInt]

/-- C16: with `readRelease` of this file as the collaborator, `upgradeTo`
returns an error for every binary path and every release, "autoupgrade
disabled" when some asset matches and `ErrNoReleaseDownload` otherwise, and
hands back the file system as it was, whatever failures the file operations
would meet. -/
theorem upgradeTo_disabled (ft : Faults) (binary : String) (rel : Release) (fs : FS) :
    upgradeTo readRelease filepathDir names ft binary rel fs
      = (some (if hasMatchingAsset names rel = true
            then Error.other "autoupgrade disabled"
            else Error.ErrNoReleaseDownload), fs) := by
  by_cases hm : hasMatchingAsset names rel = true
  · obtain ⟨a, _, _, heq⟩ := upgradeTo_matched readRelease filepathDir names ft binary rel fs hm
    rw [heq, if_pos hm]
    rfl
  · have hm2 : hasMatchingAsset names rel = false := by simpa using hm
    rw [upgradeTo_unmatched readRelease filepathDir names ft binary rel fs hm2, if_neg hm]

/-- C17: `LatestRelease` returns the empty release and `ErrNoVersionToSelect`
for every URL, current version and flag, `FetchLatestReleases` giving the empty
list. -/
theorem latestRelease_finds_nothing (releasesURL current : String) (pre : Bool) :
    LatestRelease sortSort cmp names releasesURL current pre
      = (Release.zero, some Error.ErrNoVersionToSelect) := by
  simp [LatestRelease, FetchLatestReleases, SelectLatestRelease]

/-- C18: a release `SelectLatestRelease` returns without error is an element of
the input list and has an asset whose base name starts with an expected release
name; `upgradeTo` on it therefore passes its asset scan and is `upgradeToURL`
on a matching asset of the release. -/
theorem selected_passes_scan (hs : SortContract sortSort) (rels : List Release)
    (current : String) (pre : Bool) (r : Release)
    (h : SelectLatestRelease sortSort cmp names rels current pre = (r, none)) :
    r ∈ rels ∧ hasMatchingAsset names r = true
      ∧ ∀ (ft : Faults) (binary : String) (fs : FS),
          ∃ a ∈ r.Assets, assetMatches names r a = true
            ∧ upgradeTo extract filepathDir names ft binary r fs
                = upgradeToURL extract filepathDir ft (pathBase a.Name) binary a.URL fs := by
  obtain ⟨hmem, hc⟩ := select_mem sortSort cmp names hs rels current pre r h
  refine ⟨hmem, hc.1, ?_⟩
  intro ft binary fs
  exact upgradeTo_matched extract filepathDir names ft binary r fs hc.1

/-- C19: the walk uses `current` only to detect `MajorNewer` releases: on a
list without a release `MajorNewer` than either of two versions the result is
the same for both.  In particular a list of one eligible release that compares
`Older` or `Equal` to `current` gives that release and no error. -/
theorem select_not_only_upgrades (hs : SortContract sortSort) :
    (∀ (rels : List Release) (c1 c2 : String) (pre : Bool),
        (∀ x ∈ rels, cmp x.Tag c1 ≠ Relation.MajorNewer) →
        (∀ x ∈ rels, cmp x.Tag c2 ≠ Relation.MajorNewer) →
        SelectLatestRelease sortSort cmp names rels c1 pre
          = SelectLatestRelease sortSort cmp names rels c2 pre)
      ∧ (∀ (r : Release) (current : String) (pre : Bool),
          Eligible names pre r →
          (cmp r.Tag current = Relation.Older ∨ cmp r.Tag current = Relation.Equal) →
          ∃ res, SelectLatestRelease sortSort cmp names [r] current pre = (res, none)
            ∧ (cmp res.Tag current = Relation.Older
                ∨ cmp res.Tag current = Relation.Equal)) := by
  constructor
  · intro rels c1 c2 pre h1 h2
    by_cases hne : rels = []
    · subst hne
      simp [SelectLatestRelease]
    · rw [select_eq_loop sortSort cmp names rels c1 pre hne,
        select_eq_loop sortSort cmp names rels c2 pre hne]
      exact selectLoop_current cmp names c1 c2 pre _ _
        (fun x hx => h1 x ((mem_sorted sortSort hs _ rels x).mp hx))
        (fun x hx => h2 x ((mem_sorted sortSort hs _ rels x).mp hx))
  · intro r current pre he hrel
    exact ⟨r, select_singleton sortSort cmp names hs r current pre he, hrel⟩

end MoreClaims

/-! ### The installer and this build on concrete inputs -/

/-- C11, the claim as stated fails: the collaborator hands back
`binary + ".old"` as the extracted path and no failure is imposed.  The call
returns nil, yet `binary` holds its original content, not the extracted one,
and nothing is left at `binary + ".old"`. -/
theorem swap_lost_at_old_path :
    demoFSOld "/opt/syncthing/syncthing" = some [1, 2, 3]
      ∧ demoFSOld "/opt/syncthing/syncthing.old" = some [4, 5, 6]
      ∧ (upgradeToURL (demoExtract "/opt/syncthing/syncthing.old") demoDir demoNoFaults
          "syncthing-linux-amd64-v1.1.0.tar.gz" "/opt/syncthing/syncthing"
          "https://example.org/a" demoFSOld).1 = none
      ∧ (upgradeToURL (demoExtract "/opt/syncthing/syncthing.old") demoDir demoNoFaults
          "syncthing-linux-amd64-v1.1.0.tar.gz" "/opt/syncthing/syncthing"
          "https://example.org/a" demoFSOld).2 "/opt/syncthing/syncthing" = some [1, 2, 3]
      ∧ (upgradeToURL (demoExtract "/opt/syncthing/syncthing.old") demoDir demoNoFaults
          "syncthing-linux-amd64-v1.1.0.tar.gz" "/opt/syncthing/syncthing"
          "https://example.org/a" demoFSOld).2 "/opt/syncthing/syncthing.old" = none := by
  decide

/-- C11, an instance: with the extracted file at a path of its own and no
failure imposed, the binary holds the new content and `binary + ".old"` the
old one. -/
theorem swap_on_success_witness :
    (∃ fname n c0,
        demoExtract "/opt/syncthing/syncthing.tmp" "syncthing-linux-amd64-v1.1.0.tar.gz"
            (demoDir "/opt/syncthing/syncthing") "https://example.org/a" = (fname, none)
          ∧ demoFS fname = some n ∧ demoFS "/opt/syncthing/syncthing" = some c0
          ∧ (upgradeToURL (demoExtract "/opt/syncthing/syncthing.tmp") demoDir demoNoFaults
              "syncthing-linux-amd64-v1.1.0.tar.gz" "/opt/syncthing/syncthing"
              "https://example.org/a" demoFS).2 "/opt/syncthing/syncthing" = some n
          ∧ (upgradeToURL (demoExtract "/opt/syncthing/syncthing.tmp") demoDir demoNoFaults
              "syncthing-linux-amd64-v1.1.0.tar.gz" "/opt/syncthing/syncthing"
              "https://example.org/a" demoFS).2
                ("/opt/syncthing/syncthing" ++ ".old") = some c0)
      ∧ (upgradeToURL (demoExtract "/opt/syncthing/syncthing.tmp") demoDir demoNoFaults
          "syncthing-linux-amd64-v1.1.0.tar.gz" "/opt/syncthing/syncthing"
          "https://example.org/a" demoFS).2 "/opt/syncthing/syncthing" = some [4, 5, 6]
      ∧ (upgradeToURL (demoExtract "/opt/syncthing/syncthing.tmp") demoDir demoNoFaults
          "syncthing-linux-amd64-v1.1.0.tar.gz" "/opt/syncthing/syncthing"
          "https://example.org/a" demoFS).2 "/opt/syncthing/syncthing.old"
            = some [1, 2, 3] :=
  ⟨(swap_on_success demoReleaseNames (demoExtract "/opt/syncthing/syncthing.tmp") demoDir
      demoNoFaults "/opt/syncthing/syncthing" demoFS
      (fun _ _ fname h => by
        have h2 : fname = "/opt/syncthing/syncthing.tmp" := (congrArg Prod.fst h).symm
        rw [h2]
        decide)).1
      "syncthing-linux-amd64-v1.1.0.tar.gz" "https://example.org/a" (by decide),
    by decide, by decide⟩

/-- C12, an instance: a release without assets. -/
theorem upgradeTo_no_asset_witness :
    hasMatchingAsset demoReleaseNames
        { Tag := "v1.1.0", Prerelease := false, Assets := [] } = false
      ∧ upgradeTo (demoExtract "/opt/syncthing/syncthing.tmp") demoDir demoReleaseNames
          demoNoFaults "/opt/syncthing/syncthing"
          { Tag := "v1.1.0", Prerelease := false, Assets := [] } demoFS
        = (some Error.ErrNoReleaseDownload, demoFS) :=
  ⟨by decide,
    upgradeTo_no_asset demoReleaseNames (demoExtract "/opt/syncthing/syncthing.tmp") demoDir
      demoNoFaults "/opt/syncthing/syncthing"
      { Tag := "v1.1.0", Prerelease := false, Assets := [] } demoFS (by decide)⟩

/-- C13, an instance: of three assets the second is the first that matches; its
base name and URL go to `upgradeToURL`, the third is not used. -/
theorem upgradeTo_first_match_witness :
    upgradeTo (demoExtract "/opt/syncthing/syncthing.tmp") demoDir demoReleaseNames
        demoNoFaults "/opt/syncthing/syncthing" demoMultiAsset demoFS
      = upgradeToURL (demoExtract "/opt/syncthing/syncthing.tmp") demoDir demoNoFaults
          "syncthing-linux-amd64-v1.1.0.tar.gz" "/opt/syncthing/syncthing"
          "https://example.org/a" demoFS :=
  (upgradeTo_first_match demoReleaseNames (demoExtract "/opt/syncthing/syncthing.tmp")
    demoDir demoNoFaults "/opt/syncthing/syncthing" demoMultiAsset demoFS
    [{ Name := "syncthing-windows-amd64-v1.1.0.zip", URL := "https://example.org/w" }]
    [{ Name := "syncthing-linux-amd64-v1.1.0.zip", URL := "https://example.org/b" }]
    { Name := "dist/syncthing-linux-amd64-v1.1.0.tar.gz", URL := "https://example.org/a" }
    (by decide) (by decide) (by decide)).1

/-- C14, the claim as stated fails: the first rename fails and the deferred
remove of the extracted file fails too; `upgradeToURL` returns the error of the
rename and the extracted file is still there. -/
theorem extracted_file_left_behind :
    demoExtract "/opt/syncthing/syncthing.tmp" "syncthing-linux-amd64-v1.1.0.tar.gz"
        (demoDir "/opt/syncthing/syncthing") "https://example.org/a"
        = ("/opt/syncthing/syncthing.tmp", none)
      ∧ (upgradeToURL (demoExtract "/opt/syncthing/syncthing.tmp") demoDir demoCleanupFails
          "syncthing-linux-amd64-v1.1.0.tar.gz" "/opt/syncthing/syncthing"
          "https://example.org/a" demoFS).1 = some (Error.other "permission denied")
      ∧ (upgradeToURL (demoExtract "/opt/syncthing/syncthing.tmp") demoDir demoCleanupFails
          "syncthing-linux-amd64-v1.1.0.tar.gz" "/opt/syncthing/syncthing"
          "https://example.org/a" demoFS).2 "/opt/syncthing/syncthing.tmp"
            = some [4, 5, 6] := by
  decide

/-- C14, an instance: the second rename fails, the deferred remove goes
through, and nothing is left at the extracted path. -/
theorem extracted_file_removed_witness :
    ((upgradeToURL (demoExtract "/opt/syncthing/syncthing.tmp") demoDir demoRenameNewFails
          "syncthing-linux-amd64-v1.1.0.tar.gz" "/opt/syncthing/syncthing"
          "https://example.org/a" demoFS).1 = none
        ∨ demoRenameNewFails.removeTmp = none)
      ∧ (upgradeToURL (demoExtract "/opt/syncthing/syncthing.tmp") demoDir demoRenameNewFails
          "syncthing-linux-amd64-v1.1.0.tar.gz" "/opt/syncthing/syncthing"
          "https://example.org/a" demoFS).2 "/opt/syncthing/syncthing.tmp" = none :=
  ⟨Or.inr rfl,
    extracted_file_removed (demoExtract "/opt/syncthing/syncthing.tmp") demoDir
      demoRenameNewFails "syncthing-linux-amd64-v1.1.0.tar.gz" "/opt/syncthing/syncthing"
      "https://example.org/a" "/opt/syncthing/syncthing.tmp" demoFS rfl (Or.inr rfl)⟩

/-- C15, an instance: a comparator in which a positive answer one way is a
negative answer the other way, on a malformed tag. -/
theorem compare_reflexive_witness :
    (∀ a b, 0 < (CompareVersions a b).toInt ↔ (CompareVersions b a).toInt < 0)
      ∧ CompareVersions "v1.x.3-rc1" "v1.x.3-rc1" = Relation.Equal :=
  ⟨compareVersions_preorder.antisymm,
    (compare_reflexive.2.2 CompareVersions compareVersions_preorder.antisymm).1
      "v1.x.3-rc1"⟩

/-- C18, an instance: the release selected among `v1.2.0` without a matching
asset, `v1.1.0` and `v2.0.0` passes the asset scan of `upgradeTo`. -/
theorem selected_passes_scan_witness :
    SortContract insertionSort
      ∧ SelectLatestRelease insertionSort CompareVersions demoReleaseNames
          [demoRelease "v1.2.0" false "syncthing-windows-amd64-v1.2.0.zip",
           demoRelease "v1.1.0" false "syncthing-linux-amd64-v1.1.0.tar.gz",
           demoRelease "v2.0.0" false "syncthing-linux-amd64-v2.0.0.tar.gz"] "v1.0.0" false
        = (demoRelease "v1.1.0" false "syncthing-linux-amd64-v1.1.0.tar.gz", none)
      ∧ demoRelease "v1.1.0" false "syncthing-linux-amd64-v1.1.0.tar.gz"
          ∈ [demoRelease "v1.2.0" false "syncthing-windows-amd64-v1.2.0.zip",
             demoRelease "v1.1.0" false "syncthing-linux-amd64-v1.1.0.tar.gz",
             demoRelease "v2.0.0" false "syncthing-linux-amd64-v2.0.0.tar.gz"]
      ∧ hasMatchingAsset demoReleaseNames
          (demoRelease "v1.1.0" false "syncthing-linux-amd64-v1.1.0.tar.gz") = true
      ∧ ∃ a ∈ (demoRelease "v1.1.0" false "syncthing-linux-amd64-v1.1.0.tar.gz").Assets,
          assetMatches demoReleaseNames
              (demoRelease "v1.1.0" false "syncthing-linux-amd64-v1.1.0.tar.gz") a = true
            ∧ upgradeTo readRelease demoDir demoReleaseNames demoNoFaults
                "/opt/syncthing/syncthing"
                (demoRelease "v1.1.0" false "syncthing-linux-amd64-v1.1.0.tar.gz") demoFS
              = upgradeToURL readRelease demoDir demoNoFaults (pathBase a.Name)
                  "/opt/syncthing/syncthing" a.URL demoFS :=
  ⟨insertionSort_contract, by decide,
    (selected_passes_scan insertionSort CompareVersions demoReleaseNames readRelease
      demoDir insertionSort_contract
      [demoRelease "v1.2.0" false "syncthing-windows-amd64-v1.2.0.zip",
       demoRelease "v1.1.0" false "syncthing-linux-amd64-v1.1.0.tar.gz",
       demoRelease "v2.0.0" false "syncthing-linux-amd64-v2.0.0.tar.gz"] "v1.0.0" false
      (demoRelease "v1.1.0" false "syncthing-linux-amd64-v1.1.0.tar.gz") (by decide)).1,
    (selected_passes_scan insertionSort CompareVersions demoReleaseNames readRelease
      demoDir insertionSort_contract
      [demoRelease "v1.2.0" false "syncthing-windows-amd64-v1.2.0.zip",
       demoRelease "v1.1.0" false "syncthing-linux-amd64-v1.1.0.tar.gz",
       demoRelease "v2.0.0" false "syncthing-linux-amd64-v2.0.0.tar.gz"] "v1.0.0" false
      (demoRelease "v1.1.0" false "syncthing-linux-amd64-v1.1.0.tar.gz") (by decide)).2.1,
    (selected_passes_scan insertionSort CompareVersions demoReleaseNames readRelease
      demoDir insertionSort_contract
      [demoRelease "v1.2.0" false "syncthing-windows-amd64-v1.2.0.zip",
       demoRelease "v1.1.0" false "syncthing-linux-amd64-v1.1.0.tar.gz",
       demoRelease "v2.0.0" false "syncthing-linux-amd64-v2.0.0.tar.gz"] "v1.0.0" false
      (demoRelease "v1.1.0" false "syncthing-linux-amd64-v1.1.0.tar.gz") (by decide)).2.2
      demoNoFaults "/opt/syncthing/syncthing" demoFS⟩

/-- C19, instances: `v1.0.0` alone is returned with `current` at `v1.1.0`,
where it compares `Older`, and with `current` at `v1.0.0`, where it compares
`Equal`; `v0.9.0` alone is returned with `current` at `v1.0.0`, where it
compares `Older`, major `0` and major `1` counting as one major line. -/
theorem select_not_only_upgrades_witness :
    SortContract insertionSort
      ∧ CompareVersions "v1.0.0" "v1.1.0" = Relation.Older
      ∧ SelectLatestRelease insertionSort CompareVersions demoReleaseNames
          [demoRelease "v1.0.0" false "syncthing-linux-amd64-v1.0.0.tar.gz"] "v1.1.0" false
        = (demoRelease "v1.0.0" false "syncthing-linux-amd64-v1.0.0.tar.gz", none)
      ∧ CompareVersions "v1.0.0" "v1.0.0" = Relation.Equal
      ∧ SelectLatestRelease insertionSort CompareVersions demoReleaseNames
          [demoRelease "v1.0.0" false "syncthing-linux-amd64-v1.0.0.tar.gz"] "v1.0.0" false
        = (demoRelease "v1.0.0" false "syncthing-linux-amd64-v1.0.0.tar.gz", none)
      ∧ CompareVersions "v0.9.0" "v1.0.0" = Relation.Older
      ∧ SelectLatestRelease insertionSort CompareVersions demoReleaseNames
          [demoRelease "v0.9.0" false "syncthing-linux-amd64-v0.9.0.tar.gz"] "v1.0.0" false
        = (demoRelease "v0.9.0" false "syncthing-linux-amd64-v0.9.0.tar.gz", none)
      ∧ (∃ res, SelectLatestRelease insertionSort CompareVersions demoReleaseNames
            [demoRelease "v1.0.0" false "syncthing-linux-amd64-v1.0.0.tar.gz"] "v1.1.0" false
            = (res, none)
          ∧ (CompareVersions res.Tag "v1.1.0" = Relation.Older
              ∨ CompareVersions res.Tag "v1.1.0" = Relation.Equal))
      ∧ SelectLatestRelease insertionSort CompareVersions demoReleaseNames
          [demoRelease "v0.9.0" false "syncthing-linux-amd64-v0.9.0.tar.gz"] "v1.0.0" false
        = SelectLatestRelease insertionSort CompareVersions demoReleaseNames
          [demoRelease "v0.9.0" false "syncthing-linux-amd64-v0.9.0.tar.gz"] "v0.1.0" false :=
  ⟨insertionSort_contract, by decide, by decide, by decide, by decide, by decide, by decide,
    (select_not_only_upgrades insertionSort CompareVersions demoReleaseNames
      insertionSort_contract).2
      (demoRelease "v1.0.0" false "syncthing-linux-amd64-v1.0.0.tar.gz") "v1.1.0" false
      (by decide) (by decide),
    (select_not_only_upgrades insertionSort CompareVersions demoReleaseNames
      insertionSort_contract).1
      [demoRelease "v0.9.0" false "syncthing-linux-amd64-v0.9.0.tar.gz"] "v1.0.0" "v0.1.0"
      false (by decide) (by decide)⟩

end Upgrade
